import Mathlib

/-!
# MDM document catalog: the server's document store

A shallow embedding of `server/index.js`: the upload filter, the listing
query (filter, sort, paginate), ingest, single delete and bulk delete, the
streaming routes and the bulk download, over an explicit state made of the
index file `db.json` and the `uploads` directory; and of the selection of the
client's table view.

Conventions of the embedding.
* JavaScript strings are `String`s; the string primitives the server calls
  are written over the character list of a string.
* `String.prototype.toLowerCase` on arbitrary text needs the Unicode case
  tables; the title filter takes it as a `CaseMapping`, of which only the
  folding of `A`..`Z` on ASCII text is known.
* `file.size` and `doc.size` are natural numbers (byte counts).
* `uploadDate` is stored as the millisecond timestamp that
  `new Date(...).toISOString()` encodes and `new Date(doc.uploadDate).getTime()`
  decodes again.
* Handlers are functions from a state and a request to a new state and a
  response.
-/

namespace MDM

/-! ## JavaScript and Node primitives used by the server -/

/-- The lower-casing of one character, on the letters `A`..`Z`. -/
def lowerChar (c : Char) : Char :=
  if 65 ≤ c.toNat ∧ c.toNat ≤ 90 then Char.ofNat (c.toNat + 32) else c

/-- What `String.prototype.toLowerCase` does to the letters `A`..`Z`; every
other character is left as it is. This is the whole of `toLowerCase` on a
string of ASCII characters. The server also applies `toLowerCase` to the
result of `path.extname` and compares it with words over `a`..`z` that hold
neither `i` nor `k`, the only ASCII letters that are the lower case of a
character outside ASCII (U+0130, U+212A), so there too only the folding of
`A`..`Z` decides the outcome. -/
def toLowerCase (s : String) : String :=
  ⟨s.data.map lowerChar⟩

/-- `String.prototype.toLowerCase` on arbitrary text is the lower-case mapping
of the Unicode character database, which is no part of the repository: the
title filter takes it as a parameter. What is used of it is that on a string
of ASCII characters it folds `A`..`Z` and nothing else. -/
structure CaseMapping where
  lower : String → String
  lower_ascii : ∀ s : String, (∀ c ∈ s.data, c.toNat < 128) → lower s = toLowerCase s

/-- The case mapping to evaluate the listing on ASCII text. -/
def asciiCase : CaseMapping :=
  ⟨toLowerCase, fun _ _ => rfl⟩

/-- Whether `p` is a prefix of `l`. -/
def prefixOf : List Char → List Char → Bool
  | [], _ => true
  | _ :: _, [] => false
  | a :: p, b :: l => a == b && prefixOf p l

/-- Whether `p` occurs in `l` as a contiguous block, searching from the left. -/
def occursIn (p : List Char) : List Char → Bool
  | [] => prefixOf p []
  | c :: l => prefixOf p (c :: l) || occursIn p l

/-- `String.prototype.startsWith`. -/
def startsWith (s p : String) : Bool :=
  prefixOf p.data s.data

/-- `String.prototype.includes`. -/
def includes (s p : String) : Bool :=
  occursIn p.data s.data

/-- The last path component of a POSIX path, trailing slashes dropped, as a
reversed character list. -/
def lastComponentRev (p : List Char) : List Char :=
  (p.reverse.dropWhile (· == '/')).takeWhile (· != '/')

/-- Node's `path.extname` (POSIX): the part of the last path component from
its last dot on; empty when there is no dot, when the only dot is the first
character of the component, or when the component is `..`. -/
def extname (path : String) : String :=
  let rev := lastComponentRev path.data
  let afterDot := rev.takeWhile (· != '.')
  let upToDot := rev.dropWhile (· != '.')
  match upToDot with
  | [] => ""
  | _ :: before =>
    if before.isEmpty then ""
    else if afterDot.isEmpty && before == ['.'] then ""
    else ⟨(afterDot ++ ['.']).reverse⟩

/-- The `name` field of Node's `path.parse` (POSIX): the last path component
without its extension. -/
def parseName (path : String) : String :=
  let base := (lastComponentRev path.data).reverse
  ⟨base.take (base.length - (extname path).data.length)⟩

/-! ## Data model -/

/-- One entry of `db.documents`, as built by `POST /documents`. -/
structure DocumentRecord where
  id : String
  title : String
  filename : String
  size : Nat
  uploadDate : Nat
  mimetype : String
deriving DecidableEq, Repr

/-- The part of a multipart file that the upload filter looks at. -/
structure IncomingFile where
  originalname : String
  mimetype : String
deriving DecidableEq, Repr

/-! ## The upload filter -/

deriving instance DecidableEq for Except

/-- The alternatives of the regular expression `allowedTypes`
(`/pdf|doc|docx|txt|html|htm|xls|xlsx|rtf|csv|json/`), in order. -/
def allowedTypes : List String :=
  ["pdf", "doc", "docx", "txt", "html", "htm", "xls", "xlsx", "rtf", "csv", "json"]

/-- `allowedTypes.test(s)`: the expression has no anchors, so it matches when
one of its alternatives occurs anywhere in `s`. -/
def allowedTypesTest (s : String) : Bool :=
  allowedTypes.any (fun w => includes s w)

/-- The multer `fileFilter`: `cb(new Error(msg), false)` is `Except.error msg`
and `cb(null, true)` is `Except.ok true`. -/
def fileFilter (file : IncomingFile) : Except String Bool :=
  if startsWith file.mimetype "image/" then
    .error "Images are not allowed"
  else
    let extOk := allowedTypesTest (toLowerCase (extname file.originalname))
    if extOk then .ok true
    else .error "File type not allowed"

/-! ## The state: the index file and the uploads directory -/

/-- What the server keeps outside the process: the content of `db.json`
(`none` when the file is missing, unreadable or not valid JSON, otherwise the
`documents` array it holds), the names of the files in `UPLOADS_DIR`, and the
names on which `fs.unlinkSync` throws (a file that exists but cannot be
removed). -/
structure Store where
  dbFile : Option (List DocumentRecord)
  uploads : List String
  unlinkFails : List String
deriving DecidableEq, Repr

/-- `readDB().documents`: the parsed file, or the empty index when reading or
parsing throws. -/
def readDB (s : Store) : List DocumentRecord :=
  match s.dbFile with
  | some documents => documents
  | none => []

/-- `writeDB(db)`: replaces the content of `db.json`. -/
def writeDB (s : Store) (documents : List DocumentRecord) : Store :=
  { s with dbFile := some documents }

/-- `fs.existsSync(path.join(UPLOADS_DIR, name))`. -/
def existsSync (s : Store) (name : String) : Bool :=
  s.uploads.contains name

/-- `fs.unlinkSync(path.join(UPLOADS_DIR, name))`: `none` when it throws. -/
def unlinkSync (s : Store) (name : String) : Option Store :=
  if s.unlinkFails.contains name then none
  else some { s with uploads := s.uploads.filter (fun n => n != name) }

/-- The body of a JSON response. -/
inductive Body where
  | error (error : String)
  | listing (documents : List DocumentRecord) (total : Nat) (page pageSize : Int)
  | uploaded (message : String) (documents : List DocumentRecord)
  | deleted (message : String) (id : String)
  | bulkDeleted (message : String) (deletedIds : List String)
deriving DecidableEq, Repr

/-- An HTTP response: status code and JSON body. -/
structure Response where
  status : Nat
  body : Body
deriving DecidableEq, Repr

/-! ## GET /documents: filter, sort, paginate -/

/-- The query parameters of `GET /documents` after the numeric coercions the
handler applies to `page` and `pageSize`. -/
structure ListQuery where
  page : Int
  pageSize : Int
  sortBy : String
  sortOrder : String
  q : String
deriving DecidableEq, Repr

/-- The defaults of the destructuring of `req.query`. -/
def ListQuery.defaults : ListQuery :=
  { page := 1, pageSize := 10, sortBy := "date", sortOrder := "desc", q := "" }

/-- The text filter: skipped when `q` is the empty string (falsy); `cm` is
`String.prototype.toLowerCase`. -/
def filterDocs (cm : CaseMapping) (q : String) (docs : List DocumentRecord) :
    List DocumentRecord :=
  if q.data.isEmpty then docs
  else docs.filter (fun doc => includes (cm.lower doc.title) (cm.lower q))

/-- The value the comparator reads off a record. -/
def sortKey (sortBy : String) (d : DocumentRecord) : Int :=
  if sortBy = "size" then (d.size : Int) else (d.uploadDate : Int)

/-- The comparator passed to `docs.sort`. -/
def compareDocs (sortBy sortOrder : String) (a b : DocumentRecord) : Int :=
  let valA := sortKey sortBy a
  let valB := sortKey sortBy b
  if sortOrder = "asc" then valA - valB else valB - valA

/-- One insertion of the stable sort: `x`, which preceded every element of
the list, stays in front of the first element it does not compare greater
than. -/
def insertSorted {α : Type} (cmp : α → α → Int) (x : α) : List α → List α
  | [] => [x]
  | y :: ys => if cmp x y ≤ 0 then x :: y :: ys else y :: insertSorted cmp x ys

/-- `Array.prototype.sort(cmp)`. The language fixes its result for a
consistent comparator: sorted by `cmp` and stable. It is computed here by
stable insertion. -/
def jsSort {α : Type} (cmp : α → α → Int) : List α → List α
  | [] => []
  | x :: xs => insertSorted cmp x (jsSort cmp xs)

/-- `Array.prototype.slice(start, stop)`: a negative bound counts from the
end, both bounds are clamped to the array. -/
def jsSlice {α : Type} (xs : List α) (start stop : Int) : List α :=
  let len : Int := xs.length
  let k := if start < 0 then max (len + start) 0 else min start len
  let fin := if stop < 0 then max (len + stop) 0 else min stop len
  (xs.drop k.toNat).take (fin - k).toNat

/-- The sorted, filtered sequence the handler paginates. -/
def sortedDocs (cm : CaseMapping) (query : ListQuery) (docs : List DocumentRecord) :
    List DocumentRecord :=
  jsSort (compareDocs query.sortBy query.sortOrder) (filterDocs cm query.q docs)

/-- The handler of `GET /documents`. -/
def listDocuments (cm : CaseMapping) (s : Store) (query : ListQuery) : Response :=
  let docs := sortedDocs cm query (readDB s)
  let total := docs.length
  let startIndex := (query.page - 1) * query.pageSize
  let endIndex := min (startIndex + query.pageSize) (total : Int)
  let paginatedDocs := jsSlice docs startIndex endIndex
  ⟨200, .listing paginatedDocs total query.page query.pageSize⟩

/-! ## POST /documents: upload -/

/-- One file of the multipart field `files`, with the values the server
observes while handling it: `now` is `Date.now()` and `random` is
`Math.round(Math.random() * 1E9)` in the storage `filename` callback, `clock`
is the timestamp of `new Date()` when the record is built. -/
structure UploadPart where
  originalname : String
  mimetype : String
  bytes : List Nat
  now : Nat
  random : Nat
  clock : Nat
deriving DecidableEq, Repr

/-- What the filter sees of a part. -/
def UploadPart.file (p : UploadPart) : IncomingFile :=
  ⟨p.originalname, p.mimetype⟩

/-- An element of `req.files`, as multer's disk storage fills it. -/
structure MulterFile where
  fieldname : String
  originalname : String
  mimetype : String
  filename : String
  size : Nat
deriving DecidableEq, Repr

/-- The `filename` callback of the disk storage. -/
def storageFilename (fieldname : String) (p : UploadPart) : String :=
  let uniqueSuffix := toString p.now ++ "-" ++ toString p.random
  fieldname ++ "-" ++ uniqueSuffix ++ extname p.originalname

/-- The file multer stores for an accepted part of the field `files`. -/
def storeFile (p : UploadPart) : MulterFile :=
  { fieldname := "files", originalname := p.originalname, mimetype := p.mimetype,
    filename := storageFilename "files" p, size := p.bytes.length }

/-- The outcome of `upload.array('files')`: multer takes the parts in order,
asks `fileFilter` for each and writes an accepted one to `UPLOADS_DIR`
under its storage filename. At the first error it stops and removes the
files this request has written (a removal that fails is skipped); the
error is handed to the route callback. -/
def uploadArray (s : Store) : List UploadPart → List MulterFile → Store × Except String (List MulterFile)
  | [], done => (s, .ok done.reverse)
  | p :: rest, done =>
    match fileFilter p.file with
    | .error msg =>
      let written := done.map (fun f => f.filename)
      let kept := s.uploads.filter (fun n => !written.contains n || s.unlinkFails.contains n)
      ({ s with uploads := kept }, .error msg)
    | .ok _ =>
      let f := storeFile p
      uploadArray { s with uploads := f.filename :: s.uploads } rest (f :: done)

/-- The record built for one element of `req.files`. -/
def newDoc (f : MulterFile) (clock : Nat) : DocumentRecord :=
  { id := parseName f.filename, title := f.originalname, filename := f.filename,
    size := f.size, uploadDate := clock, mimetype := f.mimetype }

/-- The handler of `POST /documents`. -/
def ingest (s : Store) (parts : List UploadPart) : Store × Response :=
  match uploadArray s parts [] with
  | (s1, .error msg) => (s1, ⟨400, .error msg⟩)
  | (s1, .ok files) =>
    if files.isEmpty then (s1, ⟨400, .error "No files uploaded"⟩)
    else
      let documents := readDB s1
      let newDocs := (files.zip parts).map (fun fp => newDoc fp.1 fp.2.clock)
      (writeDB s1 (documents ++ newDocs), ⟨201, .uploaded "Upload successful" newDocs⟩)

/-! ## DELETE /documents/:id and POST /documents/delete-bulk -/

/-- `documents.findIndex(d => d.id === id)`, `none` standing for `-1`. -/
def findIndex (id : String) : List DocumentRecord → Option Nat
  | [] => none
  | d :: ds => if d.id = id then some 0 else (findIndex id ds).map (· + 1)

/-- `documents.splice(i, 1)`: what is left in the array. -/
def splice1 : Nat → List DocumentRecord → List DocumentRecord
  | _, [] => []
  | 0, _ :: ds => ds
  | i + 1, d :: ds => d :: splice1 i ds

/-- The handler of `DELETE /documents/:id`. A throw inside the `try` block
answers 500 and keeps what was done before it. -/
def deleteOne (s : Store) (id : String) : Store × Response :=
  let documents := readDB s
  match findIndex id documents with
  | none => (s, ⟨404, .error "Document not found"⟩)
  | some docIndex =>
    match documents.get? docIndex with
    | none => (s, ⟨500, .error "Server error during delete"⟩)
    | some doc =>
      let s1 := writeDB s (splice1 docIndex documents)
      if existsSync s1 doc.filename then
        match unlinkSync s1 doc.filename with
        | none => (s1, ⟨500, .error "Server error during delete"⟩)
        | some s2 => (s2, ⟨200, .deleted "Document deleted successfully" id⟩)
      else (s1, ⟨200, .deleted "Document deleted successfully" id⟩)

/-- The variables the `forEach` of the bulk delete works on: the array
`db.documents` in memory, the files on disk, and `deletedIds`. -/
structure BulkState where
  documents : List DocumentRecord
  store : Store
  deletedIds : List String
deriving DecidableEq, Repr

/-- One call of the `forEach` callback; `Except.error` is a throw, carrying
the files as they are on disk at that moment. -/
def bulkStep (st : BulkState) (id : String) : Except Store BulkState :=
  match findIndex id st.documents with
  | none => .ok st
  | some docIndex =>
    match st.documents.get? docIndex with
    | none => .error st.store
    | some doc =>
      let documents := splice1 docIndex st.documents
      if existsSync st.store doc.filename then
        match unlinkSync st.store doc.filename with
        | none => .error st.store
        | some store => .ok ⟨documents, store, st.deletedIds ++ [id]⟩
      else .ok ⟨documents, st.store, st.deletedIds ++ [id]⟩

/-- The whole `docIds.forEach(...)`: it ends at the first throw. -/
def bulkLoop : List String → BulkState → Except Store BulkState
  | [], st => .ok st
  | id :: ids, st =>
    match bulkStep st id with
    | .error store => .error store
    | .ok st1 => bulkLoop ids st1

/-- The handler of `POST /documents/delete-bulk`, for a body whose `docIds`
is an array of strings. -/
def deleteMany (s : Store) (docIds : List String) : Store × Response :=
  if docIds.isEmpty then (s, ⟨400, .error "No document IDs provided"⟩)
  else
    match bulkLoop docIds ⟨readDB s, s, []⟩ with
    | .error store => (store, ⟨500, .error "Server error during bulk delete"⟩)
    | .ok st =>
      (writeDB st.store st.documents,
        ⟨200, .bulkDeleted ("Deleted " ++ toString st.deletedIds.length ++ " documents")
          st.deletedIds⟩)

/-! ## Properties the claims speak about -/

/-- Every record of the index has its stored file in the uploads directory. -/
def Consistent (s : Store) : Prop :=
  ∀ d ∈ readDB s, d.filename ∈ s.uploads

/-- No two records of the index share a stored filename. -/
def DistinctFilenames (s : Store) : Prop :=
  ((readDB s).map (fun d => d.filename)).Nodup

/-- The storage filenames generated for a batch are new: pairwise distinct and
not the stored filename of a record already in the index. -/
def FreshNames (s : Store) (parts : List UploadPart) : Prop :=
  (parts.map (storageFilename "files")).Nodup ∧
    ∀ p ∈ parts, storageFilename "files" p ∉ (readDB s).map (fun d => d.filename)

instance (s : Store) : Decidable (Consistent s) := by
  unfold Consistent; infer_instance

instance (s : Store) : Decidable (DistinctFilenames s) := by
  unfold DistinctFilenames; infer_instance

instance (s : Store) (parts : List UploadPart) : Decidable (FreshNames s parts) := by
  unfold FreshNames; infer_instance

/-- The `documents` array of a response body, empty when it has none. -/
def Body.documents : Body → List DocumentRecord
  | .listing documents _ _ _ => documents
  | .uploaded _ documents => documents
  | _ => []

/-- The extensions the specification allows, with their dot. -/
def specAllowList : List String :=
  [".pdf", ".doc", ".docx", ".txt", ".html", ".htm", ".xls", ".xlsx", ".ppt", ".pptx",
    ".rtf", ".csv", ".md", ".json"]

/-! ## GET /documents/:id/view and GET /documents/:id/download -/

/-- What a streaming route answers: a JSON error with its status, or the
headers it sets and the file of `UPLOADS_DIR` it pipes into the response. The
`Content-Disposition` header is kept as its two parts, the disposition type
and the `filename` parameter. -/
inductive StreamReply where
  | error (status : Nat) (error : String)
  | stream (disposition : String) (filename : String) (contentType : String) (file : String)
deriving DecidableEq, Repr

/-- `db.documents.find(d => d.id === id)`. -/
def findDoc (id : String) : List DocumentRecord → Option DocumentRecord
  | [] => none
  | d :: ds => if d.id = id then some d else findDoc id ds

/-- The object literal `viewMimetypes`, as its key-value pairs. -/
def viewMimetypes : List (String × String) :=
  [(".md", "text/plain; charset=utf-8"),
    (".txt", "text/plain; charset=utf-8"),
    (".json", "application/json; charset=utf-8"),
    (".csv", "text/plain; charset=utf-8"),
    (".html", "text/html; charset=utf-8"),
    (".htm", "text/html; charset=utf-8"),
    (".xml", "text/xml; charset=utf-8"),
    (".pdf", "application/pdf"),
    (".rtf", "text/plain; charset=utf-8")]

/-- The property read `viewMimetypes[ext]`, `none` standing for `undefined`.
The argument is the result of `path.extname`, so it is empty or starts with a
dot and names no inherited property. -/
def viewMimetypesAt (ext : String) : List (String × String) → Option String
  | [] => none
  | (key, value) :: rest => if key = ext then some value else viewMimetypesAt ext rest

/-- `a || b` on strings: the empty string is the falsy one. -/
def orElse (a b : String) : String :=
  if a = "" then b else a

/-- The `contentType` of the view route:
`viewMimetypes[ext] || doc.mimetype || 'application/octet-stream'`. -/
def viewContentType (doc : DocumentRecord) : String :=
  let ext := toLowerCase (extname doc.title)
  match viewMimetypesAt ext viewMimetypes with
  | some mapped => orElse mapped (orElse doc.mimetype "application/octet-stream")
  | none => orElse doc.mimetype "application/octet-stream"

/-- The `Content-Type` of the download route:
`doc.mimetype || 'application/octet-stream'`. -/
def downloadContentType (doc : DocumentRecord) : String :=
  orElse doc.mimetype "application/octet-stream"

/-- Whether `res.setHeader` takes a string as a header value: it throws on a
character outside tab, `0x20`..`0x7e` and `0x80`..`0xff`. -/
def headerValueValid (value : String) : Bool :=
  value.data.all (fun c =>
    c.toNat = 9 || (32 ≤ c.toNat && c.toNat ≤ 126) || (128 ≤ c.toNat && c.toNat ≤ 255))

/-- The handler of `GET /documents/:id/view`. The two `res.setHeader` calls
are inside the `try` block: a throw of either answers 500. The value of
`Content-Disposition` is the title between fixed valid characters, so it is
valid exactly when the title is. -/
def viewDocument (s : Store) (id : String) : StreamReply :=
  match findDoc id (readDB s) with
  | none => .error 404 "Document not found"
  | some doc =>
    if !existsSync s doc.filename then .error 404 "File on disk not found"
    else
      let contentType := viewContentType doc
      if !headerValueValid doc.title then .error 500 "Server error during view"
      else if !headerValueValid contentType then .error 500 "Server error during view"
      else .stream "inline" doc.title contentType doc.filename

/-- The handler of `GET /documents/:id/download`, with the same two
`res.setHeader` calls inside its `try` block. -/
def downloadDocument (s : Store) (id : String) : StreamReply :=
  match findDoc id (readDB s) with
  | none => .error 404 "Document not found"
  | some doc =>
    if !existsSync s doc.filename then .error 404 "File on disk not found"
    else if !headerValueValid doc.title then .error 500 "Server error during download"
    else if !headerValueValid (downloadContentType doc) then
      .error 500 "Server error during download"
    else .stream "attachment" doc.title (downloadContentType doc) doc.filename

/-! ## POST /documents/download-zip -/

/-- One call `archive.file(filePath, { name })`: the file of `UPLOADS_DIR` it
reads and the name of the entry. -/
structure ArchiveEntry where
  file : String
  name : String
deriving DecidableEq, Repr

/-- What the bulk download answers: a JSON error with its status, or a zip
stream (status 200, `Content-Type: application/zip`) with the entries added
before `archive.finalize()`. -/
inductive ArchiveReply where
  | error (status : Nat) (error : String)
  | zip (entries : List ArchiveEntry)
deriving DecidableEq, Repr

/-- The handler of `POST /documents/download-zip`, for a body whose `docIds`
is an array of strings. -/
def buildArchive (s : Store) (docIds : List String) : ArchiveReply :=
  if docIds.isEmpty then .error 400 "No document IDs provided"
  else
    let docsToZip := (readDB s).filter (fun doc => docIds.contains doc.id)
    if docsToZip.isEmpty then .error 404 "No valid documents found for IDs"
    else
      .zip ((docsToZip.filter (fun doc => existsSync s doc.filename)).map
        (fun doc => ⟨doc.filename, doc.title⟩))

/-- The entries of the archive an answer carries, none for an error. -/
def ArchiveReply.entries : ArchiveReply → List ArchiveEntry
  | .error _ _ => []
  | .zip entries => entries

/-- The status code of the bulk download. -/
def ArchiveReply.status : ArchiveReply → Nat
  | .error status _ => status
  | .zip _ => 200

/-! ## Identifiers -/

/-- The `id` the upload gives the record of a part:
`path.parse(file.filename).name`. -/
def recordId (p : UploadPart) : String :=
  parseName (storageFilename "files" p)

/-- All ids of the index are pairwise distinct. -/
def DistinctIds (s : Store) : Prop :=
  ((readDB s).map (fun d => d.id)).Nodup

/-- The ids generated for a batch are new: pairwise distinct and not the id of
a record already in the index. -/
def FreshIds (s : Store) (parts : List UploadPart) : Prop :=
  (parts.map recordId).Nodup ∧ ∀ p ∈ parts, recordId p ∉ (readDB s).map (fun d => d.id)

instance (s : Store) : Decidable (DistinctIds s) := by
  unfold DistinctIds; infer_instance

instance (s : Store) (parts : List UploadPart) : Decidable (FreshIds s parts) := by
  unfold FreshIds; infer_instance

/-! ## The client: selection in the table view -/

/-- The argument of `handleSelect`: one id, or an array of ids. -/
inductive IdOrIds where
  | one (id : String)
  | many (ids : List String)
deriving DecidableEq, Repr

/-- `handleSelect` of `App.jsx`: the value `selectedDocIds` takes, given its
previous value. -/
def handleSelect (prev : List String) : IdOrIds → List String
  | .many ids => ids
  | .one id => if prev.contains id then prev.filter (fun i => i != id) else prev ++ [id]

/-- What `handleSelectAll` of the table passes to `onSelect`, given
`e.target.checked`. -/
def handleSelectAll (documents : List DocumentRecord) (checked : Bool) : IdOrIds :=
  if checked then .many (documents.map (fun d => d.id)) else .many []

/-- The `isAllSelected` of the table, which is the `checked` of the select-all
checkbox. -/
def isAllSelected (documents : List DocumentRecord) (selectedIds : List String) : Bool :=
  decide (documents.length > 0) && decide (selectedIds.length = documents.length)

/-- The state of `App` the table renders: the documents of the page on display
and the selection. -/
structure TableState where
  documents : List DocumentRecord
  selectedDocIds : List String
deriving DecidableEq, Repr

/-- What the user does in the table view: tick the checkbox of a row, tick or
untick the select-all checkbox, or move to another page, whose documents then
replace the ones on display. -/
inductive UiEvent where
  | rowCheckbox (id : String)
  | selectAllCheckbox (checked : Bool)
  | showPage (documents : List DocumentRecord)
deriving DecidableEq, Repr

/-- The effect of one event: the checkboxes go through `handleSelect`, a page
change is `setDocuments` and leaves `selectedDocIds` alone. -/
def uiStep (st : TableState) : UiEvent → TableState
  | .rowCheckbox id => { st with selectedDocIds := handleSelect st.selectedDocIds (.one id) }
  | .selectAllCheckbox checked =>
    { st with selectedDocIds := handleSelect st.selectedDocIds (handleSelectAll st.documents checked) }
  | .showPage documents => { st with documents := documents }

/-- The state after a sequence of events. -/
def uiRun (st : TableState) (events : List UiEvent) : TableState :=
  events.foldl uiStep st

/-! ## Two uploads at once -/

/-- The callback the route hands to `upload.array('files')`, run when multer
is done with the request; `result` is its `err` or the `req.files` it has
filled. The callback is synchronous: `readDB`, `push` and `writeDB` run
without giving the event loop to another request. -/
def uploadCallback (s : Store) (parts : List UploadPart)
    (result : Except String (List MulterFile)) : Store × Response :=
  match result with
  | .error msg => (s, ⟨400, .error msg⟩)
  | .ok files =>
    if files.isEmpty then (s, ⟨400, .error "No files uploaded"⟩)
    else
      let documents := readDB s
      let newDocs := (files.zip parts).map (fun fp => newDoc fp.1 fp.2.clock)
      (writeDB s (documents ++ newDocs), ⟨201, .uploaded "Upload successful" newDocs⟩)

/-- The records the callback builds for a batch whose files were all stored. -/
def batchRecords (parts : List UploadPart) : List DocumentRecord :=
  parts.map (fun p => newDoc (storeFile p) p.clock)

/-- How far a `POST /documents` request has come: its body is still to be
handled by multer, multer is done and the callback is queued, or the callback
has run and the response is out. -/
inductive RequestPhase where
  | received (parts : List UploadPart)
  | parsed (parts : List UploadPart) (result : Except String (List MulterFile))
  | answered (response : Response)
deriving DecidableEq, Repr

/-- One turn of the event loop for a request, on the store as the turns
before it left it: multer's work on the body (which writes files and never
touches `db.json`), then the callback; a request that is answered does
nothing more. -/
def advance (s : Store) : RequestPhase → Store × RequestPhase
  | .received parts => ((uploadArray s parts []).1, .parsed parts (uploadArray s parts []).2)
  | .parsed parts result =>
    ((uploadCallback s parts result).1, .answered (uploadCallback s parts result).2)
  | .answered response => (s, .answered response)

/-- Two requests in flight over one store. -/
structure TwoUploads where
  store : Store
  first : RequestPhase
  second : RequestPhase
deriving DecidableEq, Repr

/-- The event loop gives the next turn to the first request (`true`) or to the
second (`false`). -/
def takeTurn (st : TwoUploads) (firstRuns : Bool) : TwoUploads :=
  if firstRuns then
    { st with store := (advance st.store st.first).1, first := (advance st.store st.first).2 }
  else
    { st with store := (advance st.store st.second).1, second := (advance st.store st.second).2 }

/-- The state after a sequence of turns: an interleaving of the two requests. -/
def runSchedule (st : TwoUploads) (turns : List Bool) : TwoUploads :=
  turns.foldl takeTurn st

/-- The number of turns a request has used, at most two. -/
def RequestPhase.stage : RequestPhase → Nat
  | .received _ => 0
  | .parsed _ _ => 1
  | .answered _ => 2

/-- Whether the callback of a request has run. -/
def RequestPhase.isAnswered : RequestPhase → Bool
  | .answered _ => true
  | _ => false

/-- What holds of two uploads of the batches `A` and `B` that started on the
store `s`, whatever the turns so far: each request is where its own turns
have brought it, and `db.json` holds the old index followed by the records of
the requests whose callback has run, in the order the callbacks ran. -/
def Interleaved (s : Store) (A B : List UploadPart) (st : TwoUploads) : Prop :=
  (st.first = .received A ∨ st.first = .parsed A (.ok (A.map storeFile))
      ∨ st.first = .answered ⟨201, .uploaded "Upload successful" (batchRecords A)⟩)
    ∧ (st.second = .received B ∨ st.second = .parsed B (.ok (B.map storeFile))
      ∨ st.second = .answered ⟨201, .uploaded "Upload successful" (batchRecords B)⟩)
    ∧ (match st.first.isAnswered, st.second.isAnswered with
      | false, false => st.store.dbFile = s.dbFile
      | true, false => st.store.dbFile = some (readDB s ++ batchRecords A)
      | false, true => st.store.dbFile = some (readDB s ++ batchRecords B)
      | true, true =>
        st.store.dbFile = some (readDB s ++ batchRecords A ++ batchRecords B)
          ∨ st.store.dbFile = some (readDB s ++ batchRecords B ++ batchRecords A))

/-! ## Sample data -/

/-- A store with two records and their two files. -/
def sampleStore : Store :=
  ⟨some [⟨"files-1-5", "a.pdf", "files-1-5.pdf", 3, 100, "application/pdf"⟩,
      ⟨"files-2-7", "b.txt", "files-2-7.txt", 4, 200, "text/plain"⟩],
    ["files-1-5.pdf", "files-2-7.txt"], []⟩

/-- A batch of two accepted files with distinct storage names. -/
def sampleBatch : List UploadPart :=
  [⟨"report.pdf", "application/pdf", [37, 80, 68, 70], 1700000000000, 12345, 1700000000001⟩,
    ⟨"data.csv", "text/csv", [97, 44, 98], 1700000000000, 67890, 1700000000001⟩]

/-- A batch whose two files drew the same `Date.now()` and the same random
number, hence the same storage filename. -/
def collidingBatch : List UploadPart :=
  [⟨"a.pdf", "application/pdf", [1, 2, 3], 1, 5, 100⟩,
    ⟨"b.pdf", "application/pdf", [4, 5], 1, 5, 100⟩]

/-- A batch with an image whose filename ends in an allowed extension. -/
def imageBatch : List UploadPart :=
  [⟨"report.pdf", "application/pdf", [37, 80, 68, 70], 1700000000000, 12345, 1700000000001⟩,
    ⟨"photo.pdf", "image/png", [137, 80], 1700000000000, 67890, 1700000000001⟩]

/-- A batch whose two files drew the same `Date.now()` and the same random
number but have different extensions: two storage filenames, one id. -/
def sameStampBatch : List UploadPart :=
  [⟨"a.pdf", "application/pdf", [1, 2, 3], 1, 5, 100⟩,
    ⟨"b.txt", "text/plain", [4, 5], 1, 5, 100⟩]

/-- The sample store when the file of its first record cannot be removed. -/
def lockedStore : Store :=
  { sampleStore with unlinkFails := ["files-1-5.pdf"] }

/-- The sample store after its two files were lost. -/
def emptiedStore : Store :=
  { sampleStore with uploads := [] }

/-- A store whose only record has a title outside Latin-1. -/
def unicodeTitleStore : Store :=
  ⟨some [⟨"files-5-2", "文档.pdf", "files-5-2.pdf", 9, 500, "application/pdf"⟩],
    ["files-5-2.pdf"], []⟩

/-- A store whose only record has an empty stored mimetype. -/
def untypedStore : Store :=
  ⟨some [⟨"files-3-9", "blob.doc", "files-3-9.doc", 7, 300, ""⟩], ["files-3-9.doc"], []⟩

/-- A record as the listing returns it, numbered for the samples. -/
def pageDoc (n : Nat) : DocumentRecord :=
  ⟨"files-" ++ toString n ++ "-0", "doc" ++ toString n ++ ".txt",
    "files-" ++ toString n ++ "-0.txt", 1, n, "text/plain"⟩

/-- Page 1 of a listing of twelve documents with `pageSize` 10. -/
def pageOne : List DocumentRecord :=
  (List.range 10).map pageDoc

/-- Page 2 of that listing: the two documents left. -/
def pageTwo : List DocumentRecord :=
  [pageDoc 10, pageDoc 11]

/-- A second batch of accepted files, disjoint from `sampleBatch`. -/
def otherBatch : List UploadPart :=
  [⟨"minutes.docx", "application/msword", [80, 75], 1700000000002, 424242, 1700000000003⟩]

/-! ## Lemmas on the primitives -/

theorem prefixOf_iff (p l : List Char) : prefixOf p l = true ↔ p <+: l := by
  induction p generalizing l with
  | nil => simp [prefixOf]
  | cons a p ih =>
    cases l with
    | nil => simp [prefixOf]
    | cons b l => simp [prefixOf, ih, List.cons_prefix_cons]

theorem occursIn_iff (p l : List Char) : occursIn p l = true ↔ p <:+: l := by
  induction l with
  | nil => simp [occursIn, prefixOf_iff]
  | cons c l ih => simp [occursIn, prefixOf_iff, ih, List.infix_cons_iff]

theorem includes_iff (s p : String) : includes s p = true ↔ p.data <:+: s.data := by
  simp [includes, occursIn_iff]

/-! ## Lemmas on the sort -/

theorem insertSorted_perm {α : Type} (cmp : α → α → Int) (x : α) (l : List α) :
    (insertSorted cmp x l).Perm (x :: l) := by
  induction l with
  | nil => simp [insertSorted]
  | cons y ys ih =>
    simp only [insertSorted]
    split
    · exact List.Perm.refl _
    · exact (List.Perm.cons y ih).trans (List.Perm.swap x y ys)

theorem jsSort_perm {α : Type} (cmp : α → α → Int) (l : List α) :
    (jsSort cmp l).Perm l := by
  induction l with
  | nil => simp [jsSort]
  | cons x xs ih =>
    simp only [jsSort]
    exact (insertSorted_perm cmp x _).trans (List.Perm.cons x ih)

theorem insertSorted_pairwise {α : Type} (cmp : α → α → Int)
    (htotal : ∀ a b, cmp a b ≤ 0 ∨ cmp b a ≤ 0)
    (htrans : ∀ a b c, cmp a b ≤ 0 → cmp b c ≤ 0 → cmp a c ≤ 0)
    (x : α) (l : List α) (hl : l.Pairwise (fun a b => cmp a b ≤ 0)) :
    (insertSorted cmp x l).Pairwise (fun a b => cmp a b ≤ 0) := by
  induction l with
  | nil => simp [insertSorted]
  | cons y ys ih =>
    rw [List.pairwise_cons] at hl
    simp only [insertSorted]
    split
    · rename_i hxy
      refine List.pairwise_cons.2 ⟨?_, List.pairwise_cons.2 hl⟩
      intro z hz
      rcases List.mem_cons.1 hz with rfl | hz
      · exact hxy
      · exact htrans _ _ _ hxy (hl.1 z hz)
    · rename_i hxy
      have hyx : cmp y x ≤ 0 := by
        rcases htotal x y with h | h
        · exact absurd h hxy
        · exact h
      refine List.pairwise_cons.2 ⟨?_, ih hl.2⟩
      intro z hz
      rcases List.mem_cons.1 ((insertSorted_perm cmp x ys).subset hz) with rfl | hz
      · exact hyx
      · exact hl.1 z hz

theorem jsSort_pairwise {α : Type} (cmp : α → α → Int)
    (htotal : ∀ a b, cmp a b ≤ 0 ∨ cmp b a ≤ 0)
    (htrans : ∀ a b c, cmp a b ≤ 0 → cmp b c ≤ 0 → cmp a c ≤ 0) (l : List α) :
    (jsSort cmp l).Pairwise (fun a b => cmp a b ≤ 0) := by
  induction l with
  | nil => simp [jsSort]
  | cons x xs ih => exact insertSorted_pairwise cmp htotal htrans x _ ih

theorem insertSorted_filter {α : Type} (cmp : α → α → Int) (p : α → Bool) (x : α)
    (hskip : ∀ y, p x = true → p y = true → cmp x y ≤ 0) (l : List α) :
    (insertSorted cmp x l).filter p = (x :: l).filter p := by
  induction l with
  | nil => simp [insertSorted]
  | cons y ys ih =>
    simp only [insertSorted]
    split
    · rfl
    · rename_i hxy
      rw [List.filter_cons, ih]
      by_cases hx : p x = true
      · have hy : p y = false := by
          by_contra hy
          exact hxy (hskip y hx (by simpa using hy))
        simp [List.filter_cons, hx, hy]
      · simp [List.filter_cons, hx]

theorem jsSort_filter {α : Type} (cmp : α → α → Int) (p : α → Bool)
    (hskip : ∀ x y, p x = true → p y = true → cmp x y ≤ 0) (l : List α) :
    (jsSort cmp l).filter p = l.filter p := by
  induction l with
  | nil => simp [jsSort]
  | cons x xs ih =>
    simp only [jsSort]
    rw [insertSorted_filter cmp p x (hskip x), List.filter_cons, List.filter_cons, ih]

theorem compareDocs_total (sortBy sortOrder : String) (a b : DocumentRecord) :
    compareDocs sortBy sortOrder a b ≤ 0 ∨ compareDocs sortBy sortOrder b a ≤ 0 := by
  simp only [compareDocs]
  split <;> omega

theorem compareDocs_trans (sortBy sortOrder : String) (a b c : DocumentRecord)
    (hab : compareDocs sortBy sortOrder a b ≤ 0) (hbc : compareDocs sortBy sortOrder b c ≤ 0) :
    compareDocs sortBy sortOrder a c ≤ 0 := by
  simp only [compareDocs] at *
  split at hab <;> simp_all <;> omega

/-! ## The listing query -/

theorem filterDocs_eq_filter (cm : CaseMapping) (q : String) (docs : List DocumentRecord) :
    filterDocs cm q docs
      = docs.filter (fun d => decide ((cm.lower q).data <:+: (cm.lower d.title).data)) := by
  unfold filterDocs
  split
  · rename_i hq
    have hq0 : q = "" := by
      simp only [List.isEmpty_iff] at hq
      exact String.ext hq
    have hq' : (cm.lower q).data = [] := by
      rw [hq0, cm.lower_ascii "" (by simp)]
      rfl
    symm
    rw [List.filter_eq_self]
    intro d _
    simp [hq']
  · apply List.filter_congr
    intro d _
    rw [Bool.eq_iff_iff]
    simp [includes_iff]

/-- C6: the text filter of the listing keeps exactly the records whose
title, lower-cased by `toLowerCase`, contains the lower-cased `q` as a
contiguous substring, in index order; the empty `q` keeps every record; the
listing's `total` counts exactly these records. On ASCII text: `REPORT`
keeps `Annual Report.pdf` and drops `notes.txt`, `report` keeps
`REPORT-2024.DOC`, and a `q` that occurs in no title keeps nothing. -/
theorem filterDocs_spec (cm : CaseMapping) (q : String) (docs : List DocumentRecord) (s : Store)
    (query : ListQuery) :
    filterDocs cm q docs
        = docs.filter (fun d => decide ((cm.lower q).data <:+: (cm.lower d.title).data))
      ∧ (filterDocs cm q docs).Sublist docs
      ∧ (∀ d, d ∈ filterDocs cm q docs ↔
          d ∈ docs ∧ ∃ pre post, (cm.lower d.title).data = pre ++ (cm.lower q).data ++ post)
      ∧ filterDocs cm "" docs = docs
      ∧ (∃ page, listDocuments cm s query = ⟨200, .listing page
          ((readDB s).filter (fun d =>
            decide ((cm.lower query.q).data <:+: (cm.lower d.title).data))).length
          query.page query.pageSize⟩)
      ∧ filterDocs cm "REPORT"
          [⟨"files-1-1", "Annual Report.pdf", "files-1-1.pdf", 3, 1, "application/pdf"⟩,
            ⟨"files-2-2", "notes.txt", "files-2-2.txt", 4, 2, "text/plain"⟩,
            ⟨"files-3-3", "REPORT-2024.DOC", "files-3-3.DOC", 5, 3, "application/msword"⟩]
        = [⟨"files-1-1", "Annual Report.pdf", "files-1-1.pdf", 3, 1, "application/pdf"⟩,
            ⟨"files-3-3", "REPORT-2024.DOC", "files-3-3.DOC", 5, 3, "application/msword"⟩]
      ∧ filterDocs cm "report"
          [⟨"files-2-2", "notes.txt", "files-2-2.txt", 4, 2, "text/plain"⟩,
            ⟨"files-3-3", "REPORT-2024.DOC", "files-3-3.DOC", 5, 3, "application/msword"⟩]
        = [⟨"files-3-3", "REPORT-2024.DOC", "files-3-3.DOC", 5, 3, "application/msword"⟩]
      ∧ filterDocs cm "Invoice"
          [⟨"files-1-1", "Annual Report.pdf", "files-1-1.pdf", 3, 1, "application/pdf"⟩,
            ⟨"files-2-2", "notes.txt", "files-2-2.txt", 4, 2, "text/plain"⟩]
        = [] := by
  refine ⟨filterDocs_eq_filter cm q docs, ?_, ?_, ?_, ?_, ?_, ?_, ?_⟩
  · rw [filterDocs_eq_filter]; exact List.filter_sublist _
  · intro d
    rw [filterDocs_eq_filter, List.mem_filter]
    simp only [decide_eq_true_eq, List.IsInfix]
    constructor
    · rintro ⟨hd, pre, post, h⟩
      exact ⟨hd, pre, post, h.symm⟩
    · rintro ⟨hd, pre, post, h⟩
      exact ⟨hd, pre, post, h.symm⟩
  · simp [filterDocs]
  · refine ⟨(listDocuments cm s query).body.documents, ?_⟩
    simp only [listDocuments, sortedDocs, Body.documents]
    rw [(jsSort_perm _ _).length_eq, filterDocs_eq_filter]
  · rw [filterDocs_eq_filter]
    simp only [List.filter_cons, List.filter_nil]
    rw [cm.lower_ascii "REPORT" (by decide), cm.lower_ascii "Annual Report.pdf" (by decide),
      cm.lower_ascii "notes.txt" (by decide), cm.lower_ascii "REPORT-2024.DOC" (by decide)]
    decide
  · rw [filterDocs_eq_filter]
    simp only [List.filter_cons, List.filter_nil]
    rw [cm.lower_ascii "report" (by decide), cm.lower_ascii "notes.txt" (by decide),
      cm.lower_ascii "REPORT-2024.DOC" (by decide)]
    decide
  · rw [filterDocs_eq_filter]
    simp only [List.filter_cons, List.filter_nil]
    rw [cm.lower_ascii "Invoice" (by decide), cm.lower_ascii "Annual Report.pdf" (by decide),
      cm.lower_ascii "notes.txt" (by decide)]
    decide

/-- C7: the sorted sequence of the listing is a permutation of the filtered
records, with non-decreasing sort key under `asc` and non-increasing sort key
under `desc`; sizes 10, 5, 20 come out as 5, 10, 20 and as 20, 10, 5. -/
theorem sortedDocs_sorted (cm : CaseMapping) (page pageSize : Int) (sortBy q : String)
    (docs : List DocumentRecord) :
    (∀ sortOrder, (sortedDocs cm ⟨page, pageSize, sortBy, sortOrder, q⟩ docs).Perm (filterDocs cm q docs))
      ∧ (sortedDocs cm ⟨page, pageSize, sortBy, "asc", q⟩ docs).Pairwise
          (fun a b => sortKey sortBy a ≤ sortKey sortBy b)
      ∧ (sortedDocs cm ⟨page, pageSize, sortBy, "desc", q⟩ docs).Pairwise
          (fun a b => sortKey sortBy b ≤ sortKey sortBy a)
      ∧ (∀ d : DocumentRecord, sortKey "size" d = d.size ∧ sortKey "date" d = d.uploadDate)
      ∧ (sortedDocs cm ⟨1, 10, "size", "asc", ""⟩
            [⟨"a", "a.txt", "a.txt", 10, 1, "text/plain"⟩, ⟨"b", "b.txt", "b.txt", 5, 2, "text/plain"⟩,
              ⟨"c", "c.txt", "c.txt", 20, 3, "text/plain"⟩]).map (fun d => d.size) = [5, 10, 20]
      ∧ (sortedDocs cm ⟨1, 10, "size", "desc", ""⟩
            [⟨"a", "a.txt", "a.txt", 10, 1, "text/plain"⟩, ⟨"b", "b.txt", "b.txt", 5, 2, "text/plain"⟩,
              ⟨"c", "c.txt", "c.txt", 20, 3, "text/plain"⟩]).map (fun d => d.size) = [20, 10, 5] := by
  have hempty : ∀ l : List DocumentRecord, filterDocs cm "" l = l := fun l => by
    simp [filterDocs]
  refine ⟨fun _ => jsSort_perm _ _, ?_, ?_, ?_, ?_, ?_⟩
  rotate_left 3
  · simp only [sortedDocs, hempty]
    decide
  · simp only [sortedDocs, hempty]
    decide
  · have h := jsSort_pairwise (compareDocs sortBy "asc") (compareDocs_total _ _)
      (compareDocs_trans _ _) (filterDocs cm q docs)
    refine h.imp ?_
    intro a b hab
    simp only [compareDocs] at hab
    simp at hab
    omega
  · have h := jsSort_pairwise (compareDocs sortBy "desc") (compareDocs_total _ _)
      (compareDocs_trans _ _) (filterDocs cm q docs)
    refine h.imp ?_
    intro a b hab
    simp only [compareDocs] at hab
    simp at hab
    omega
  · intro d
    exact ⟨by simp [sortKey], by simp [sortKey]⟩

/-- C8: the sort of the listing is stable for every sort order: for each key
value, the records with that sort key appear in the sorted sequence in the
same order as in the filtered index; under `desc` two records of equal size
keep their index order. -/
theorem sortedDocs_stable (cm : CaseMapping) (query : ListQuery) (docs : List DocumentRecord)
    (k : Int) :
    (sortedDocs cm query docs).filter (fun d => decide (sortKey query.sortBy d = k))
        = (filterDocs cm query.q docs).filter (fun d => decide (sortKey query.sortBy d = k))
      ∧ (sortedDocs cm ⟨1, 10, "size", "desc", ""⟩
            [⟨"a", "a.txt", "a.txt", 7, 1, "text/plain"⟩, ⟨"b", "b.txt", "b.txt", 9, 2, "text/plain"⟩,
              ⟨"c", "c.txt", "c.txt", 7, 3, "text/plain"⟩]).map (fun d => d.id) = ["b", "a", "c"] := by
  have hempty : ∀ l : List DocumentRecord, filterDocs cm "" l = l := fun l => by
    simp [filterDocs]
  refine ⟨?_, by simp only [sortedDocs, hempty]; decide⟩
  apply jsSort_filter
  intro x y hx hy
  simp only [decide_eq_true_eq] at hx hy
  simp only [compareDocs]
  split <;> omega

/-- `jsSlice` between two natural bounds. -/
theorem jsSlice_nat {α : Type} (xs : List α) (a b : Nat) :
    jsSlice xs (a : Int) (b : Int) = (xs.drop a).take (min b xs.length - a) := by
  unfold jsSlice
  have ha : ¬ ((a : Int) < 0) := by omega
  have hb : ¬ ((b : Int) < 0) := by omega
  simp only [ha, hb, if_false]
  by_cases hlen : a ≤ xs.length
  · have h1 : (min (a : Int) (xs.length : Int)).toNat = a := by omega
    have h2 : (min (b : Int) (xs.length : Int) - min (a : Int) (xs.length : Int)).toNat
        = min b xs.length - a := by omega
    rw [h1, h2]
  · have h1 : xs.length ≤ (min (a : Int) (xs.length : Int)).toNat := by omega
    have h3 : xs.length ≤ a := by omega
    rw [List.drop_eq_nil_of_le h1, List.drop_eq_nil_of_le h3]
    simp

theorem listDocuments_slice (cm : CaseMapping) (s : Store) (query : ListQuery)
    (hp : 1 ≤ query.page) (hs : 0 < query.pageSize) :
    listDocuments cm s query
        = ⟨200, .listing
            (((sortedDocs cm query (readDB s)).drop ((query.page.toNat - 1) * query.pageSize.toNat)).take
              (min (query.page.toNat * query.pageSize.toNat) (sortedDocs cm query (readDB s)).length
                - (query.page.toNat - 1) * query.pageSize.toNat))
            (filterDocs cm query.q (readDB s)).length query.page query.pageSize⟩
      ∧ ((sortedDocs cm query (readDB s)).length ≤ (query.page.toNat - 1) * query.pageSize.toNat →
          listDocuments cm s query
            = ⟨200, .listing [] (filterDocs cm query.q (readDB s)).length query.page query.pageSize⟩) := by
  obtain ⟨P, hP⟩ : ∃ P : Nat, query.page = ((P + 1 : Nat) : Int) := ⟨(query.page - 1).toNat, by omega⟩
  obtain ⟨N, hN⟩ : ∃ N : Nat, query.pageSize = ((N + 1 : Nat) : Int) :=
    ⟨(query.pageSize - 1).toNat, by omega⟩
  have hlen : (sortedDocs cm query (readDB s)).length = (filterDocs cm query.q (readDB s)).length :=
    (jsSort_perm _ _).length_eq
  have hstart : (query.page - 1) * query.pageSize = ((P * (N + 1) : Nat) : Int) := by
    rw [hP, hN]; push_cast; ring
  have hstop : min ((query.page - 1) * query.pageSize + query.pageSize)
      ((sortedDocs cm query (readDB s)).length : Int)
      = ((min (P * (N + 1) + (N + 1)) (sortedDocs cm query (readDB s)).length : Nat) : Int) := by
    rw [hstart, hN]; push_cast; rfl
  have hPn : query.page.toNat = P + 1 := by omega
  have hNn : query.pageSize.toNat = N + 1 := by omega
  have main : listDocuments cm s query
        = ⟨200, .listing
            (((sortedDocs cm query (readDB s)).drop ((query.page.toNat - 1) * query.pageSize.toNat)).take
              (min (query.page.toNat * query.pageSize.toNat) (sortedDocs cm query (readDB s)).length
                - (query.page.toNat - 1) * query.pageSize.toNat))
            (filterDocs cm query.q (readDB s)).length query.page query.pageSize⟩ := by
    simp only [listDocuments]
    rw [hstop, hstart, jsSlice_nat, hlen, hPn, hNn]
    have e1 : P + 1 - 1 = P := by omega
    have e2 : (P + 1) * (N + 1) = P * (N + 1) + (N + 1) := by ring
    rw [e1, e2]
    congr 3
    omega
  refine ⟨main, ?_⟩
  intro hpast
  rw [main, List.drop_eq_nil_of_le hpast]
  simp

/-- C9: for `page ≥ 1` and `pageSize > 0` the listing returns the slice
`[(page-1)*pageSize, min(page*pageSize, total))` of the filtered and sorted
sequence, and as `total` the length of the whole filtered sequence; a page
past the end is an empty list with status 200 and the same `total`. -/
theorem listDocuments_page (cm : CaseMapping) (s : Store) (query : ListQuery)
    (hp : 1 ≤ query.page) (hs : 0 < query.pageSize) :
    listDocuments cm s query
        = ⟨200, .listing
            (((sortedDocs cm query (readDB s)).drop ((query.page.toNat - 1) * query.pageSize.toNat)).take
              (min (query.page.toNat * query.pageSize.toNat) (sortedDocs cm query (readDB s)).length
                - (query.page.toNat - 1) * query.pageSize.toNat))
            (filterDocs cm query.q (readDB s)).length query.page query.pageSize⟩
      ∧ ((sortedDocs cm query (readDB s)).length ≤ (query.page.toNat - 1) * query.pageSize.toNat →
          listDocuments cm s query
            = ⟨200, .listing [] (filterDocs cm query.q (readDB s)).length query.page query.pageSize⟩) :=
  listDocuments_slice cm s query hp hs

/-- A witness of C9: page 2 of size 2 over three records is the last record,
and page 3 is empty with `total = 3`. -/
theorem listDocuments_page_witness :
    listDocuments asciiCase
        ⟨some [⟨"a", "a.txt", "a.txt", 10, 1, "text/plain"⟩, ⟨"b", "b.txt", "b.txt", 5, 2, "text/plain"⟩,
          ⟨"c", "c.txt", "c.txt", 20, 3, "text/plain"⟩], [], []⟩ ⟨2, 2, "size", "asc", ""⟩
      = ⟨200, .listing [⟨"c", "c.txt", "c.txt", 20, 3, "text/plain"⟩] 3 2 2⟩
    ∧ listDocuments asciiCase
        ⟨some [⟨"a", "a.txt", "a.txt", 10, 1, "text/plain"⟩, ⟨"b", "b.txt", "b.txt", 5, 2, "text/plain"⟩,
          ⟨"c", "c.txt", "c.txt", 20, 3, "text/plain"⟩], [], []⟩ ⟨3, 2, "size", "asc", ""⟩
      = ⟨200, .listing [] 3 3 2⟩ := by
  refine ⟨?_, ?_⟩
  · rw [(listDocuments_page asciiCase
      ⟨some [⟨"a", "a.txt", "a.txt", 10, 1, "text/plain"⟩, ⟨"b", "b.txt", "b.txt", 5, 2, "text/plain"⟩,
        ⟨"c", "c.txt", "c.txt", 20, 3, "text/plain"⟩], [], []⟩ ⟨2, 2, "size", "asc", ""⟩
      (by decide) (by decide)).1]
    decide
  · rw [(listDocuments_page asciiCase
      ⟨some [⟨"a", "a.txt", "a.txt", 10, 1, "text/plain"⟩, ⟨"b", "b.txt", "b.txt", 5, 2, "text/plain"⟩,
        ⟨"c", "c.txt", "c.txt", 20, 3, "text/plain"⟩], [], []⟩ ⟨3, 2, "size", "asc", ""⟩
      (by decide) (by decide)).2 (by decide)]
    decide

/-! ## Lemmas on the index operations -/

theorem findIndex_eq_none (id : String) (docs : List DocumentRecord) :
    findIndex id docs = none ↔ ∀ d ∈ docs, d.id ≠ id := by
  induction docs with
  | nil => simp [findIndex]
  | cons d ds ih =>
    simp only [findIndex]
    split
    · rename_i hd
      simp [hd]
    · rename_i hd
      simp [ih, hd]

theorem findIndex_eq_some (id : String) (docs : List DocumentRecord) (i : Nat)
    (h : findIndex id docs = some i) :
    ∃ l1 doc l2, docs = l1 ++ doc :: l2 ∧ doc.id = id ∧ (∀ d ∈ l1, d.id ≠ id)
      ∧ docs.get? i = some doc ∧ splice1 i docs = l1 ++ l2 := by
  induction docs generalizing i with
  | nil => simp [findIndex] at h
  | cons d ds ih =>
    simp only [findIndex] at h
    split at h
    · rename_i hd
      cases h
      exact ⟨[], d, ds, rfl, hd, by simp, rfl, rfl⟩
    · rename_i hd
      cases hf : findIndex id ds with
      | none => simp [hf] at h
      | some j =>
        simp [hf] at h
        subst h
        obtain ⟨l1, doc, l2, hdocs, hid, hl1, hget, hsp⟩ := ih j hf
        refine ⟨d :: l1, doc, l2, by simp [hdocs], hid, ?_, by simpa using hget, ?_⟩
        · intro x hx
          rcases List.mem_cons.1 hx with rfl | hx
          · exact hd
          · exact hl1 x hx
        · simp [splice1, hsp]

/-! ## Single delete -/

/-- C10: for an id that no record of the index has, `deleteOne` answers 404
"Document not found" and returns the store as it was: nothing is written to
the index and no file is removed. -/
theorem deleteOne_absent (s : Store) (id : String) (h : ∀ d ∈ readDB s, d.id ≠ id) :
    deleteOne s id = (s, ⟨404, .error "Document not found"⟩) := by
  have hnone := (findIndex_eq_none id (readDB s)).2 h
  simp [deleteOne, hnone]

/-- A witness of C10: deleting an unknown id from a one-record store. -/
theorem deleteOne_absent_witness :
    (∀ d ∈ readDB ⟨some [⟨"files-1-5", "a.pdf", "files-1-5.pdf", 3, 100, "application/pdf"⟩],
        ["files-1-5.pdf"], []⟩, d.id ≠ "files-9-9")
      ∧ deleteOne ⟨some [⟨"files-1-5", "a.pdf", "files-1-5.pdf", 3, 100, "application/pdf"⟩],
          ["files-1-5.pdf"], []⟩ "files-9-9"
        = (⟨some [⟨"files-1-5", "a.pdf", "files-1-5.pdf", 3, 100, "application/pdf"⟩],
          ["files-1-5.pdf"], []⟩, ⟨404, .error "Document not found"⟩) :=
  ⟨by decide, deleteOne_absent _ _ (by decide)⟩

/-! ## Lemmas on the upload -/

theorem fileFilter_cases (file : IncomingFile) :
    fileFilter file = .ok true ∨ ∃ msg, fileFilter file = .error msg := by
  unfold fileFilter
  split
  · exact Or.inr ⟨_, rfl⟩
  · simp only []
    split
    · exact Or.inl rfl
    · exact Or.inr ⟨_, rfl⟩

theorem uploadArray_dbFile (parts : List UploadPart) (s : Store) (done : List MulterFile) :
    (uploadArray s parts done).1.dbFile = s.dbFile := by
  induction parts generalizing s done with
  | nil => simp [uploadArray]
  | cons p rest ih =>
    simp only [uploadArray]
    split
    · rfl
    · rw [ih]

theorem uploadArray_keeps (parts : List UploadPart) (s : Store) (done : List MulterFile)
    (n : String) (hn : n ∈ s.uploads) (hdone : n ∉ done.map (fun f => f.filename))
    (hparts : n ∉ parts.map (storageFilename "files")) :
    n ∈ (uploadArray s parts done).1.uploads := by
  induction parts generalizing s done with
  | nil => simpa [uploadArray] using hn
  | cons p rest ih =>
    simp only [List.map_cons, List.mem_cons, not_or] at hparts
    simp only [uploadArray]
    split
    · simp only [List.mem_filter]
      refine ⟨hn, ?_⟩
      have hnot : ∀ x ∈ done, ¬ x.filename = n := by
        intro x hx hxn
        exact hdone (List.mem_map.2 ⟨x, hx, hxn⟩)
      simp
      exact Or.inl hnot
    · apply ih
      · simp [hn]
      · simp only [List.map_cons, List.mem_cons, not_or]
        exact ⟨by simpa [storeFile] using hparts.1, hdone⟩
      · exact hparts.2

theorem uploadArray_ok (parts : List UploadPart) (s : Store) (done : List MulterFile)
    (hacc : ∀ p ∈ parts, fileFilter p.file = .ok true) :
    (uploadArray s parts done).2 = .ok (done.reverse ++ parts.map storeFile)
      ∧ ∀ n, n ∈ (uploadArray s parts done).1.uploads ↔
          n ∈ s.uploads ∨ n ∈ parts.map (storageFilename "files") := by
  induction parts generalizing s done with
  | nil => simp [uploadArray]
  | cons p rest ih =>
    have hp := hacc p (List.mem_cons_self _ _)
    have hrest : ∀ q ∈ rest, fileFilter q.file = .ok true :=
      fun q hq => hacc q (List.mem_cons_of_mem _ hq)
    simp only [uploadArray, hp]
    obtain ⟨h1, h2⟩ := ih { s with uploads := (storeFile p).filename :: s.uploads }
      (storeFile p :: done) hrest
    refine ⟨by simp [h1], ?_⟩
    intro n
    rw [h2]
    simp only [List.mem_cons, List.map_cons, storeFile]
    tauto

theorem uploadArray_ok_inv (parts : List UploadPart) (s : Store) (done files : List MulterFile)
    (h : (uploadArray s parts done).2 = .ok files) :
    ∀ p ∈ parts, fileFilter p.file = .ok true := by
  induction parts generalizing s done with
  | nil => simp
  | cons p rest ih =>
    simp only [uploadArray] at h
    rcases fileFilter_cases p.file with hp | ⟨msg, hp⟩
    · simp only [hp] at h
      intro q hq
      rcases List.mem_cons.1 hq with rfl | hq
      · exact hp
      · exact ih _ _ h q hq
    · simp [hp] at h

theorem uploadArray_error (parts : List UploadPart) (s : Store) (done : List MulterFile)
    (p : UploadPart) (hp : p ∈ parts) (msg : String) (hrej : fileFilter p.file = .error msg) :
    ∃ msg1, (uploadArray s parts done).2 = .error msg1 := by
  by_contra hcon
  cases hres : (uploadArray s parts done).2 with
  | error msg1 => exact hcon ⟨msg1, hres⟩
  | ok files =>
    have := uploadArray_ok_inv parts s done files hres p hp
    rw [hrej] at this
    cases this

theorem zip_storeFile (parts : List UploadPart) :
    ((parts.map storeFile).zip parts).map (fun fp => newDoc fp.1 fp.2.clock)
      = parts.map (fun p => newDoc (storeFile p) p.clock) := by
  induction parts with
  | nil => rfl
  | cons p rest ih => simp [ih]

theorem ingest_accepted (s : Store) (parts : List UploadPart) (hne : parts ≠ [])
    (hacc : ∀ p ∈ parts, fileFilter p.file = .ok true) :
    ingest s parts
      = (writeDB (uploadArray s parts []).1
            (readDB s ++ parts.map (fun p => newDoc (storeFile p) p.clock)),
          ⟨201, .uploaded "Upload successful"
            (parts.map (fun p => newDoc (storeFile p) p.clock))⟩) := by
  obtain ⟨h1, _⟩ := uploadArray_ok parts s [] hacc
  have hdb := uploadArray_dbFile parts s []
  unfold ingest
  generalize uploadArray s parts [] = r at h1 hdb
  obtain ⟨s1, res⟩ := r
  simp only at h1 hdb
  subst h1
  have hnotempty : (parts.map storeFile).isEmpty = false := by
    cases parts with
    | nil => exact absurd rfl hne
    | cons p rest => rfl
  simp only [List.reverse_nil, List.nil_append, hnotempty, zip_storeFile]
  simp [readDB, hdb]

theorem ingest_rejected (s : Store) (parts : List UploadPart) (p : UploadPart) (hp : p ∈ parts)
    (msg : String) (hrej : fileFilter p.file = .error msg) :
    ∃ msg1, ingest s parts = ((uploadArray s parts []).1, ⟨400, .error msg1⟩) := by
  obtain ⟨msg1, h1⟩ := uploadArray_error parts s [] p hp msg hrej
  refine ⟨msg1, ?_⟩
  unfold ingest
  generalize uploadArray s parts [] = r at h1
  obtain ⟨s1, res⟩ := r
  simp only at h1
  subst h1
  rfl

/-! ## Lemmas on removal -/

theorem remove_keeps (l1 l2 : List DocumentRecord) (doc : DocumentRecord) (uploads : List String)
    (hc : ∀ d ∈ l1 ++ doc :: l2, d.filename ∈ uploads)
    (hd : ((l1 ++ doc :: l2).map (fun d => d.filename)).Nodup) :
    (∀ d ∈ l1 ++ l2, d.filename ∈ uploads.filter (fun n => n != doc.filename))
      ∧ (∀ d ∈ l1 ++ l2, d.filename ∈ uploads)
      ∧ ((l1 ++ l2).map (fun d => d.filename)).Nodup := by
  have hsub : (l1 ++ l2).Sublist (l1 ++ doc :: l2) :=
    List.Sublist.append (List.Sublist.refl l1) (List.sublist_cons_self doc l2)
  have hmem : ∀ d ∈ l1 ++ l2, d ∈ l1 ++ doc :: l2 := fun d hd1 => hsub.subset hd1
  have hne : ∀ d ∈ l1 ++ l2, d.filename ≠ doc.filename := by
    intro d hd1 heq
    rw [List.map_append, List.map_cons] at hd
    have hparts := List.nodup_append.1 hd
    have hnot2 : doc.filename ∉ l2.map (fun d => d.filename) :=
      (List.nodup_cons.1 hparts.2.1).1
    rcases List.mem_append.1 hd1 with h1 | h2
    · exact hparts.2.2 (List.mem_map.2 ⟨d, h1, rfl⟩)
        (by rw [heq]; exact List.mem_cons_self _ _)
    · exact hnot2 (List.mem_map.2 ⟨d, h2, heq⟩)
  refine ⟨?_, fun d hd1 => hc d (hmem d hd1), (hd.sublist (hsub.map _))⟩
  intro d hd1
  rw [List.mem_filter]
  exact ⟨hc d (hmem d hd1), by simpa using hne d hd1⟩

theorem unlinkSync_cases (s : Store) (name : String) :
    unlinkSync s name = none
      ∨ unlinkSync s name = some { s with uploads := s.uploads.filter (fun n => n != name) } := by
  unfold unlinkSync
  split
  · exact Or.inl rfl
  · exact Or.inr rfl

theorem deleteOne_inv (s : Store) (id : String) (hc : Consistent s) (hd : DistinctFilenames s) :
    Consistent (deleteOne s id).1 ∧ DistinctFilenames (deleteOne s id).1 := by
  cases hf : findIndex id (readDB s) with
  | none =>
    simp only [deleteOne, hf]
    exact ⟨hc, hd⟩
  | some i =>
    obtain ⟨l1, doc, l2, hdocs, _, _, hget, hsp⟩ := findIndex_eq_some id (readDB s) i hf
    unfold Consistent at hc
    unfold DistinctFilenames at hd
    rw [hdocs] at hc hd
    obtain ⟨k1, k2, k3⟩ := remove_keeps l1 l2 doc s.uploads hc hd
    simp only [deleteOne, hf, hget, hsp]
    split
    · rcases unlinkSync_cases (writeDB s (l1 ++ l2)) doc.filename with hu | hu
      · simp only [hu]
        exact ⟨by simpa [Consistent, readDB, writeDB] using k2,
          by simpa [DistinctFilenames, readDB, writeDB] using k3⟩
      · simp only [hu]
        refine ⟨?_, by simpa [DistinctFilenames, readDB, writeDB] using k3⟩
        intro d hd1
        exact k1 d (by simpa [readDB, writeDB] using hd1)
    · exact ⟨by simpa [Consistent, readDB, writeDB] using k2,
        by simpa [DistinctFilenames, readDB, writeDB] using k3⟩

theorem bulkStep_inv (st st1 : BulkState) (id : String) (h : bulkStep st id = .ok st1)
    (hc : ∀ d ∈ st.documents, d.filename ∈ st.store.uploads)
    (hd : (st.documents.map (fun d => d.filename)).Nodup) :
    (∀ d ∈ st1.documents, d.filename ∈ st1.store.uploads)
      ∧ (st1.documents.map (fun d => d.filename)).Nodup := by
  unfold bulkStep at h
  cases hf : findIndex id st.documents with
  | none =>
    simp only [hf] at h
    cases h
    exact ⟨hc, hd⟩
  | some i =>
    obtain ⟨l1, doc, l2, hdocs, _, _, hget, hsp⟩ := findIndex_eq_some id st.documents i hf
    rw [hdocs] at hc hd
    obtain ⟨k1, k2, k3⟩ := remove_keeps l1 l2 doc st.store.uploads hc hd
    simp only [hf, hget, hsp] at h
    split at h
    · rcases unlinkSync_cases st.store doc.filename with hu | hu
      · simp [hu] at h
      · simp only [hu] at h
        cases h
        exact ⟨k1, k3⟩
    · cases h
      exact ⟨k2, k3⟩

theorem bulkLoop_inv (ids : List String) (st st1 : BulkState) (h : bulkLoop ids st = .ok st1)
    (hc : ∀ d ∈ st.documents, d.filename ∈ st.store.uploads)
    (hd : (st.documents.map (fun d => d.filename)).Nodup) :
    (∀ d ∈ st1.documents, d.filename ∈ st1.store.uploads)
      ∧ (st1.documents.map (fun d => d.filename)).Nodup := by
  induction ids generalizing st with
  | nil =>
    simp only [bulkLoop] at h
    cases h
    exact ⟨hc, hd⟩
  | cons id ids ih =>
    simp only [bulkLoop] at h
    cases hs : bulkStep st id with
    | error store => simp [hs] at h
    | ok st2 =>
      simp only [hs] at h
      obtain ⟨c2, d2⟩ := bulkStep_inv st st2 id hs hc hd
      exact ih st2 h c2 d2

theorem deleteMany_inv (s : Store) (docIds : List String) (hc : Consistent s)
    (hd : DistinctFilenames s) (hok : (deleteMany s docIds).2.status ≠ 500) :
    Consistent (deleteMany s docIds).1 ∧ DistinctFilenames (deleteMany s docIds).1 := by
  unfold deleteMany at hok ⊢
  split
  · exact ⟨hc, hd⟩
  · rename_i hne
    simp only [hne] at hok
    cases hl : bulkLoop docIds ⟨readDB s, s, []⟩ with
    | error store => simp [hl] at hok
    | ok st =>
      obtain ⟨c1, d1⟩ := bulkLoop_inv docIds _ st hl hc hd
      exact ⟨by simpa [Consistent, readDB, writeDB] using c1,
        by simpa [DistinctFilenames, readDB, writeDB] using d1⟩

theorem ingest_inv (s : Store) (parts : List UploadPart) (hc : Consistent s)
    (hd : DistinctFilenames s) (hfresh : FreshNames s parts) :
    Consistent (ingest s parts).1 ∧ DistinctFilenames (ingest s parts).1 := by
  have hdb := uploadArray_dbFile parts s []
  have hkeep : ∀ d ∈ readDB s, d.filename ∈ (uploadArray s parts []).1.uploads := by
    intro d hd1
    apply uploadArray_keeps parts s [] d.filename (hc d hd1) (by simp)
    intro hmem
    obtain ⟨p, hp, hpn⟩ := List.mem_map.1 hmem
    exact hfresh.2 p hp (by rw [hpn]; exact List.mem_map.2 ⟨d, hd1, rfl⟩)
  have hread : readDB (uploadArray s parts []).1 = readDB s := by
    simp [readDB, hdb]
  have hsame : Consistent (uploadArray s parts []).1
      ∧ DistinctFilenames (uploadArray s parts []).1 := by
    refine ⟨?_, ?_⟩
    · intro d hd1
      rw [hread] at hd1
      exact hkeep d hd1
    · unfold DistinctFilenames
      rw [hread]
      exact hd
  by_cases hall : ∀ p ∈ parts, fileFilter p.file = .ok true
  · by_cases hne : parts = []
    · subst hne
      simpa [ingest, uploadArray] using hsame
    · rw [ingest_accepted s parts hne hall]
      obtain ⟨_, hup⟩ := uploadArray_ok parts s [] hall
      refine ⟨?_, ?_⟩
      · intro d hd1
        simp only [readDB, writeDB, List.mem_append, List.mem_map] at hd1
        rcases hd1 with h1 | ⟨p, hp, rfl⟩
        · exact hkeep d h1
        · simp only [writeDB]
          rw [hup]
          exact Or.inr (List.mem_map.2 ⟨p, hp, rfl⟩)
      · simp only [DistinctFilenames, readDB, writeDB, List.map_append, List.map_map]
        rw [List.nodup_append]
        refine ⟨hd, hfresh.1, ?_⟩
        intro n hn1 hn2
        obtain ⟨p, hp, rfl⟩ := List.mem_map.1 hn2
        exact hfresh.2 p hp hn1
  · push_neg at hall
    obtain ⟨p, hp, hrej⟩ := hall
    rcases fileFilter_cases p.file with hok | ⟨msg, hmsg⟩
    · exact absurd hok hrej
    · obtain ⟨msg1, h1⟩ := ingest_rejected s parts p hp msg hmsg
      rw [h1]
      exact hsame

/-! ## The upload filter and the upload -/

/-- C3: a file whose declared mimetype starts with `image/` is rejected by the
upload filter with "Images are not allowed" whatever its filename is, and a
batch that contains such a file is answered with status 400 and leaves the
index file as it was. -/
theorem image_batch_rejected (s : Store) (parts : List UploadPart) (p : UploadPart)
    (hp : p ∈ parts) (himg : startsWith p.mimetype "image/" = true) :
    (∀ originalname, fileFilter ⟨originalname, p.mimetype⟩ = .error "Images are not allowed")
      ∧ (∃ msg, (ingest s parts).2 = ⟨400, .error msg⟩)
      ∧ (ingest s parts).1.dbFile = s.dbFile
      ∧ readDB (ingest s parts).1 = readDB s := by
  have hfilter : ∀ originalname,
      fileFilter ⟨originalname, p.mimetype⟩ = .error "Images are not allowed" := by
    intro originalname
    simp [fileFilter, himg]
  obtain ⟨msg1, h1⟩ := ingest_rejected s parts p hp _ (hfilter p.originalname)
  have hdb := uploadArray_dbFile parts s []
  refine ⟨hfilter, ⟨msg1, by rw [h1]⟩, by rw [h1]; exact hdb, ?_⟩
  rw [h1]
  simp [readDB, hdb]

/-- A witness of C3: a PNG named `photo.pdf` sinks the batch it is in. -/
theorem image_batch_rejected_witness :
    startsWith "image/png" "image/" = true
      ∧ (ingest sampleStore imageBatch).2 = ⟨400, .error "Images are not allowed"⟩
      ∧ (ingest sampleStore imageBatch).1.dbFile = sampleStore.dbFile := by
  have h := image_batch_rejected sampleStore imageBatch
    ⟨"photo.pdf", "image/png", [137, 80], 1700000000000, 67890, 1700000000001⟩
    (by decide) (by decide)
  exact ⟨by decide, by decide, h.2.2.1⟩

/-- C2: for a non-empty batch of accepted files the upload answers 201 with
one new record per file in batch order, persists the old index followed by
these records, each record carrying the original filename as title, the byte
length as size and the declared mimetype; a following listing of page 1 with
no text filter and `pageSize ≥ total` contains every new record. -/
theorem ingest_appends (s : Store) (parts : List UploadPart) (hne : parts ≠ [])
    (hacc : ∀ p ∈ parts, fileFilter p.file = .ok true) :
    (ingest s parts).2 = ⟨201, .uploaded "Upload successful"
        (parts.map (fun p => newDoc (storeFile p) p.clock))⟩
      ∧ readDB (ingest s parts).1 = readDB s ++ parts.map (fun p => newDoc (storeFile p) p.clock)
      ∧ (parts.map (fun p => newDoc (storeFile p) p.clock)).length = parts.length
      ∧ (∀ p, (newDoc (storeFile p) p.clock).title = p.originalname
          ∧ (newDoc (storeFile p) p.clock).size = p.bytes.length
          ∧ (newDoc (storeFile p) p.clock).mimetype = p.mimetype)
      ∧ (∀ (cm : CaseMapping) sortBy sortOrder pageSize,
          ((readDB (ingest s parts).1).length : Int) ≤ pageSize →
          ∀ p ∈ parts, newDoc (storeFile p) p.clock
            ∈ (listDocuments cm (ingest s parts).1
                ⟨1, pageSize, sortBy, sortOrder, ""⟩).body.documents) := by
  have hing := ingest_accepted s parts hne hacc
  have hread : readDB (ingest s parts).1
      = readDB s ++ parts.map (fun p => newDoc (storeFile p) p.clock) := by
    rw [hing]; rfl
  refine ⟨by rw [hing], hread, by simp, fun p => ⟨rfl, rfl, rfl⟩, ?_⟩
  intro cm sortBy sortOrder pageSize hsize p hp
  have hmem : newDoc (storeFile p) p.clock ∈ readDB (ingest s parts).1 := by
    rw [hread]
    exact List.mem_append_right _ (List.mem_map.2 ⟨p, hp, rfl⟩)
  have hpos : 0 < pageSize := by
    have : 0 < (readDB (ingest s parts).1).length := List.length_pos_of_mem hmem
    omega
  have hslice := (listDocuments_slice cm (ingest s parts).1 ⟨1, pageSize, sortBy, sortOrder, ""⟩
    (le_refl _) hpos).1
  have hlen : (sortedDocs cm ⟨1, pageSize, sortBy, sortOrder, ""⟩ (readDB (ingest s parts).1)).length
      = (readDB (ingest s parts).1).length := by
    simp only [sortedDocs]
    rw [(jsSort_perm _ _).length_eq]
    simp [filterDocs]
  have hin : newDoc (storeFile p) p.clock
      ∈ sortedDocs cm ⟨1, pageSize, sortBy, sortOrder, ""⟩ (readDB (ingest s parts).1) := by
    simp only [sortedDocs]
    apply (jsSort_perm _ _).mem_iff.2
    simpa [filterDocs] using hmem
  have h1 : (1 : Int).toNat = 1 := rfl
  rw [hslice]
  simp only [Body.documents, h1, Nat.sub_self, Nat.zero_mul, Nat.sub_zero, Nat.one_mul,
    List.drop_zero]
  rw [List.take_of_length_le (by rw [hlen]; omega)]
  exact hin

/-- A witness of C2: two accepted files uploaded into the sample store. -/
theorem ingest_appends_witness :
    sampleBatch ≠ [] ∧ (∀ p ∈ sampleBatch, fileFilter p.file = .ok true)
      ∧ readDB (ingest sampleStore sampleBatch).1
        = readDB sampleStore
          ++ [⟨"files-1700000000000-12345", "report.pdf", "files-1700000000000-12345.pdf", 4,
                1700000000001, "application/pdf"⟩,
              ⟨"files-1700000000000-67890", "data.csv", "files-1700000000000-67890.csv", 3,
                1700000000001, "text/csv"⟩] := by
  refine ⟨by decide, by decide, ?_⟩
  rw [(ingest_appends sampleStore sampleBatch (by decide) (by decide)).2.1]
  decide

/-- C4: the upload filter rejects `notes.md`, `slides.ppt` and `slides.pptx`
with "File type not allowed", although their mimetype is not an image and
their extension is on the allow-list of the specification. -/
theorem fileFilter_rejects_allowed :
    (startsWith "text/markdown" "image/" = false
        ∧ toLowerCase (extname "notes.md") ∈ specAllowList
        ∧ fileFilter ⟨"notes.md", "text/markdown"⟩ = .error "File type not allowed")
      ∧ (toLowerCase (extname "slides.ppt") ∈ specAllowList
        ∧ fileFilter ⟨"slides.ppt", "application/vnd.ms-powerpoint"⟩
          = .error "File type not allowed")
      ∧ (toLowerCase (extname "slides.pptx") ∈ specAllowList
        ∧ fileFilter ⟨"slides.pptx",
            "application/vnd.openxmlformats-officedocument.presentationml.presentation"⟩
          = .error "File type not allowed") := by
  decide

/-- C5, as stated, fails: `photo.exe` declared as `image/png` is rejected with
"Images are not allowed" and not with "File type not allowed", and
`macro.docm`, whose extension is not on the allow-list, is accepted. -/
theorem fileFilter_not_exact :
    (toLowerCase (extname "photo.exe") ∉ specAllowList
        ∧ fileFilter ⟨"photo.exe", "image/png"⟩ = .error "Images are not allowed"
        ∧ fileFilter ⟨"photo.exe", "image/png"⟩ ≠ .error "File type not allowed")
      ∧ (toLowerCase (extname "macro.docm") ∉ specAllowList
        ∧ fileFilter ⟨"macro.docm", "application/vnd.ms-word.document.macroEnabled.12"⟩
          ≠ .error "File type not allowed") := by
  decide

/-- C5, amended: a file whose mimetype does not start with `image/` and whose
lower-cased extension is not one of the fourteen allowed extensions and
contains none of `pdf`, `doc`, `txt`, `htm`, `xls`, `rtf`, `csv`, `json` is
rejected with "File type not allowed". -/
theorem fileFilter_rejects_other (file : IncomingFile)
    (himg : startsWith file.mimetype "image/" = false)
    (hnot : toLowerCase (extname file.originalname) ∉ specAllowList)
    (hext : ∀ w ∈ ["pdf", "doc", "txt", "htm", "xls", "rtf", "csv", "json"],
      ¬ (String.data w <:+: (toLowerCase (extname file.originalname)).data)) :
    fileFilter file = .error "File type not allowed" := by
  have _ := hnot
  have hno : ∀ w ∈ allowedTypes,
      includes (toLowerCase (extname file.originalname)) w = false := by
    intro w hw
    rw [Bool.eq_false_iff]
    intro hinc
    rw [includes_iff] at hinc
    simp only [allowedTypes, List.mem_cons, List.mem_singleton, List.not_mem_nil, or_false] at hw
    rcases hw with rfl | rfl | rfl | rfl | rfl | rfl | rfl | rfl | rfl | rfl | rfl
    · exact hext "pdf" (by simp) hinc
    · exact hext "doc" (by simp) hinc
    · exact hext "doc" (by simp) (List.IsInfix.trans (by decide) hinc)
    · exact hext "txt" (by simp) hinc
    · exact hext "htm" (by simp) (List.IsInfix.trans (by decide) hinc)
    · exact hext "htm" (by simp) hinc
    · exact hext "xls" (by simp) hinc
    · exact hext "xls" (by simp) (List.IsInfix.trans (by decide) hinc)
    · exact hext "rtf" (by simp) hinc
    · exact hext "csv" (by simp) hinc
    · exact hext "json" (by simp) hinc
  have htest : allowedTypesTest (toLowerCase (extname file.originalname)) = false := by
    unfold allowedTypesTest
    rw [List.any_eq_false]
    intro w hw
    simp [hno w hw]
  simp [fileFilter, himg, htest]

/-- A witness of the amended C5: `setup.exe` sent as a binary stream. -/
theorem fileFilter_rejects_other_witness :
    startsWith "application/octet-stream" "image/" = false
      ∧ toLowerCase (extname "setup.exe") ∉ specAllowList
      ∧ fileFilter ⟨"setup.exe", "application/octet-stream"⟩ = .error "File type not allowed" :=
  ⟨by decide, by decide,
    fileFilter_rejects_other ⟨"setup.exe", "application/octet-stream"⟩ (by decide) (by decide)
      (by decide)⟩

/-! ## The store invariant -/

/-- C1, as stated, fails: after an upload whose two files drew the same storage
filename every record has its file, a single delete of the shared id answers
200, and the record that is left has no file any more. -/
theorem consistency_alone_not_preserved :
    (ingest ⟨some [], [], []⟩ collidingBatch).2.status = 201
      ∧ Consistent (ingest ⟨some [], [], []⟩ collidingBatch).1
      ∧ (deleteOne (ingest ⟨some [], [], []⟩ collidingBatch).1 "files-1-5").2
          = ⟨200, .deleted "Document deleted successfully" "files-1-5"⟩
      ∧ ¬ Consistent (deleteOne (ingest ⟨some [], [], []⟩ collidingBatch).1 "files-1-5").1 := by
  decide

/-- C1, amended: "every record has its file and no two records share a stored
filename" is an invariant of the store: it is kept by every upload whose
generated storage filenames are new, and by every single delete and bulk
delete that does not answer 500. -/
theorem store_invariant (s : Store) (hc : Consistent s) (hd : DistinctFilenames s) :
    (∀ parts, FreshNames s parts →
        Consistent (ingest s parts).1 ∧ DistinctFilenames (ingest s parts).1)
      ∧ (∀ id, (deleteOne s id).2.status ≠ 500 →
        Consistent (deleteOne s id).1 ∧ DistinctFilenames (deleteOne s id).1)
      ∧ (∀ docIds, (deleteMany s docIds).2.status ≠ 500 →
        Consistent (deleteMany s docIds).1 ∧ DistinctFilenames (deleteMany s docIds).1) :=
  ⟨fun parts hfresh => ingest_inv s parts hc hd hfresh,
    fun id _ => deleteOne_inv s id hc hd,
    fun docIds hok => deleteMany_inv s docIds hc hd hok⟩

/-- A witness of the amended C1 on the sample store: an upload of two files,
the delete of one record, and a bulk delete with an unknown id. -/
theorem store_invariant_witness :
    Consistent sampleStore ∧ DistinctFilenames sampleStore
      ∧ FreshNames sampleStore sampleBatch
      ∧ (Consistent (ingest sampleStore sampleBatch).1
        ∧ DistinctFilenames (ingest sampleStore sampleBatch).1)
      ∧ (deleteOne sampleStore "files-1-5").2.status ≠ 500
      ∧ (Consistent (deleteOne sampleStore "files-1-5").1
        ∧ DistinctFilenames (deleteOne sampleStore "files-1-5").1)
      ∧ (deleteMany sampleStore ["files-2-7", "nope"]).2.status ≠ 500
      ∧ (Consistent (deleteMany sampleStore ["files-2-7", "nope"]).1
        ∧ DistinctFilenames (deleteMany sampleStore ["files-2-7", "nope"]).1) :=
  ⟨by decide, by decide, by decide,
    (store_invariant sampleStore (by decide) (by decide)).1 sampleBatch (by decide),
    by decide,
    (store_invariant sampleStore (by decide) (by decide)).2.1 "files-1-5" (by decide),
    by decide,
    (store_invariant sampleStore (by decide) (by decide)).2.2 ["files-2-7", "nope"] (by decide)⟩

/-! ## Single delete of an existing id -/

theorem findIndex_append (id : String) (l1 l2 : List DocumentRecord) (doc : DocumentRecord)
    (hid : doc.id = id) (hl1 : ∀ d ∈ l1, d.id ≠ id) :
    findIndex id (l1 ++ doc :: l2) = some l1.length := by
  induction l1 with
  | nil => simp [findIndex, hid]
  | cons d ds ih =>
    have hd : d.id ≠ id := hl1 d (List.mem_cons_self _ _)
    have hds : ∀ x ∈ ds, x.id ≠ id := fun x hx => hl1 x (List.mem_cons_of_mem _ hx)
    simp [findIndex, hd, ih hds]

theorem get?_append_mid (l1 l2 : List DocumentRecord) (doc : DocumentRecord) :
    (l1 ++ doc :: l2).get? l1.length = some doc := by
  induction l1 with
  | nil => rfl
  | cons d ds ih => simpa using ih

theorem splice1_append (l1 l2 : List DocumentRecord) (doc : DocumentRecord) :
    splice1 l1.length (l1 ++ doc :: l2) = l1 ++ l2 := by
  induction l1 with
  | nil => rfl
  | cons d ds ih => simp [splice1, ih]

theorem deleteOne_found (s : Store) (id : String) (l1 l2 : List DocumentRecord)
    (doc : DocumentRecord) (hdocs : readDB s = l1 ++ doc :: l2) (hid : doc.id = id)
    (hl1 : ∀ d ∈ l1, d.id ≠ id) :
    deleteOne s id =
      if existsSync s doc.filename = true then
        if doc.filename ∈ s.unlinkFails then
          (writeDB s (l1 ++ l2), ⟨500, .error "Server error during delete"⟩)
        else
          ({ writeDB s (l1 ++ l2) with
              uploads := s.uploads.filter (fun n => n != doc.filename) },
            ⟨200, .deleted "Document deleted successfully" id⟩)
      else (writeDB s (l1 ++ l2), ⟨200, .deleted "Document deleted successfully" id⟩) := by
  have hf := findIndex_append id l1 l2 doc hid hl1
  have hg := get?_append_mid l1 l2 doc
  have hs := splice1_append l1 l2 doc
  simp only [deleteOne, hdocs, hf, hg, hs]
  by_cases hex : existsSync s doc.filename = true
  · have hex1 : existsSync (writeDB s (l1 ++ l2)) doc.filename = true := hex
    simp only [hex, hex1, if_true]
    by_cases hfail : doc.filename ∈ s.unlinkFails
    · have hu : unlinkSync (writeDB s (l1 ++ l2)) doc.filename = none := by
        simp [unlinkSync, writeDB, hfail]
      simp only [hu, hfail, if_true]
    · have hu : unlinkSync (writeDB s (l1 ++ l2)) doc.filename
          = some { writeDB s (l1 ++ l2) with
              uploads := s.uploads.filter (fun n => n != doc.filename) } := by
        simp [unlinkSync, writeDB, hfail]
      simp only [hu, hfail, if_false]
  · have hex1 : ¬ existsSync (writeDB s (l1 ++ l2)) doc.filename = true := hex
    simp only [hex, hex1, if_false]
    simp

/-- C11, as stated, fails: `files-1-5` has a record in the store whose first
file cannot be removed, and `deleteOne` answers 500 "Server error during
delete" there, not the id. -/
theorem deleteOne_answer_not_id :
    (∃ d ∈ readDB lockedStore, d.id = "files-1-5")
      ∧ (deleteOne lockedStore "files-1-5").2 = ⟨500, .error "Server error during delete"⟩
      ∧ (deleteOne lockedStore "files-1-5").2
        ≠ ⟨200, .deleted "Document deleted successfully" "files-1-5"⟩ := by
  decide

/-- C11, amended: for an id that some record has, `deleteOne` persists the old
index with the first record of that id removed, every other record unchanged
and in its place, so that the index is one record shorter; it answers 200
with that id whenever the removal of the record's file does not throw. -/
theorem deleteOne_removes_first (s : Store) (id : String) (h : ∃ d ∈ readDB s, d.id = id) :
    ∃ l1 doc l2, readDB s = l1 ++ doc :: l2 ∧ doc.id = id ∧ (∀ d ∈ l1, d.id ≠ id)
      ∧ readDB (deleteOne s id).1 = l1 ++ l2
      ∧ (readDB (deleteOne s id).1).length + 1 = (readDB s).length
      ∧ (¬ (existsSync s doc.filename = true ∧ doc.filename ∈ s.unlinkFails) →
          (deleteOne s id).2 = ⟨200, .deleted "Document deleted successfully" id⟩) := by
  cases hf : findIndex id (readDB s) with
  | none =>
    obtain ⟨d, hd, hdid⟩ := h
    exact absurd hdid ((findIndex_eq_none id (readDB s)).1 hf d hd)
  | some i =>
    obtain ⟨l1, doc, l2, hdocs, hid, hl1, _, _⟩ := findIndex_eq_some id (readDB s) i hf
    have hdel := deleteOne_found s id l1 l2 doc hdocs hid hl1
    have hread : readDB (deleteOne s id).1 = l1 ++ l2 := by
      rw [hdel]
      split
      · split <;> rfl
      · rfl
    refine ⟨l1, doc, l2, hdocs, hid, hl1, hread, ?_, ?_⟩
    · rw [hread, hdocs]
      simp
      omega
    · intro hio
      rw [hdel]
      by_cases hex : existsSync s doc.filename = true
      · have hfail : doc.filename ∉ s.unlinkFails := fun hfail => hio ⟨hex, hfail⟩
        simp [hex, hfail]
      · simp [hex]

/-- A witness of C11: deleting the first record of the sample store. -/
theorem deleteOne_removes_first_witness :
    (∃ d ∈ readDB sampleStore, d.id = "files-1-5")
      ∧ ∃ l1 doc l2, readDB sampleStore = l1 ++ doc :: l2 ∧ doc.id = "files-1-5"
        ∧ (∀ d ∈ l1, d.id ≠ "files-1-5")
        ∧ readDB (deleteOne sampleStore "files-1-5").1 = l1 ++ l2
        ∧ (readDB (deleteOne sampleStore "files-1-5").1).length + 1 = (readDB sampleStore).length
        ∧ (¬ (existsSync sampleStore doc.filename = true ∧ doc.filename ∈ sampleStore.unlinkFails) →
            (deleteOne sampleStore "files-1-5").2
              = ⟨200, .deleted "Document deleted successfully" "files-1-5"⟩) :=
  ⟨by decide, deleteOne_removes_first sampleStore "files-1-5" (by decide)⟩

/-- C12, as stated, fails: when the file of the record cannot be removed,
`deleteOne` has persisted the index without the record and answers 500, not
the deleted id. -/
theorem deleteOne_surfaces_unlink_failure :
    deleteOne lockedStore "files-1-5"
      = (⟨some [⟨"files-2-7", "b.txt", "files-2-7.txt", 4, 200, "text/plain"⟩],
            ["files-1-5.pdf", "files-2-7.txt"], ["files-1-5.pdf"]⟩,
          ⟨500, .error "Server error during delete"⟩) := by
  decide

/-- C12, amended: on an existing id the index without the record is written
before the removal of the file is attempted; when that removal throws, the
written index stays, the file stays, and `deleteOne` answers 500 "Server error
during delete". -/
theorem deleteOne_unlink_failure (s : Store) (id : String) (l1 l2 : List DocumentRecord)
    (doc : DocumentRecord) (hdocs : readDB s = l1 ++ doc :: l2) (hid : doc.id = id)
    (hl1 : ∀ d ∈ l1, d.id ≠ id) (hex : existsSync s doc.filename = true)
    (hfail : doc.filename ∈ s.unlinkFails) :
    deleteOne s id = (writeDB s (l1 ++ l2), ⟨500, .error "Server error during delete"⟩)
      ∧ readDB (deleteOne s id).1 = l1 ++ l2
      ∧ (deleteOne s id).1.uploads = s.uploads := by
  have hdel := deleteOne_found s id l1 l2 doc hdocs hid hl1
  simp only [hex, hfail, if_true] at hdel
  rw [hdel]
  exact ⟨rfl, rfl, rfl⟩

/-- A witness of the amended C12 on the store whose first file is locked. -/
theorem deleteOne_unlink_failure_witness :
    readDB lockedStore = [] ++ (⟨"files-1-5", "a.pdf", "files-1-5.pdf", 3, 100,
          "application/pdf"⟩ : DocumentRecord)
        :: [⟨"files-2-7", "b.txt", "files-2-7.txt", 4, 200, "text/plain"⟩]
      ∧ (deleteOne lockedStore "files-1-5").2 = ⟨500, .error "Server error during delete"⟩
      ∧ readDB (deleteOne lockedStore "files-1-5").1
        = [⟨"files-2-7", "b.txt", "files-2-7.txt", 4, 200, "text/plain"⟩] := by
  have h := deleteOne_unlink_failure lockedStore "files-1-5" []
    [⟨"files-2-7", "b.txt", "files-2-7.txt", 4, 200, "text/plain"⟩]
    ⟨"files-1-5", "a.pdf", "files-1-5.pdf", 3, 100, "application/pdf"⟩
    (by decide) (by decide) (by decide) (by decide) (by decide)
  exact ⟨by decide, by rw [h.1], h.2.1⟩

/-! ## Bulk delete -/

theorem bulkStep_absent (st : BulkState) (id : String) (h : ∀ d ∈ st.documents, d.id ≠ id) :
    bulkStep st id = .ok st := by
  simp [bulkStep, (findIndex_eq_none id st.documents).2 h]

theorem bulkStep_found (st : BulkState) (id : String) (l1 l2 : List DocumentRecord)
    (doc : DocumentRecord) (hdocs : st.documents = l1 ++ doc :: l2) (hid : doc.id = id)
    (hl1 : ∀ d ∈ l1, d.id ≠ id) :
    bulkStep st id =
      if existsSync st.store doc.filename = true then
        if doc.filename ∈ st.store.unlinkFails then .error st.store
        else
          .ok ⟨l1 ++ l2,
            { st.store with uploads := st.store.uploads.filter (fun n => n != doc.filename) },
            st.deletedIds ++ [id]⟩
      else .ok ⟨l1 ++ l2, st.store, st.deletedIds ++ [id]⟩ := by
  have hf := findIndex_append id l1 l2 doc hid hl1
  have hg := get?_append_mid l1 l2 doc
  have hs := splice1_append l1 l2 doc
  simp only [bulkStep, hdocs, hf, hg, hs]
  by_cases hex : existsSync st.store doc.filename = true
  · simp only [hex, if_true]
    by_cases hfail : doc.filename ∈ st.store.unlinkFails
    · have hu : unlinkSync st.store doc.filename = none := by
        simp [unlinkSync, hfail]
      simp only [hu, hfail, if_true]
    · have hu : unlinkSync st.store doc.filename
          = some { st.store with
              uploads := st.store.uploads.filter (fun n => n != doc.filename) } := by
        simp [unlinkSync, hfail]
      simp only [hu, hfail, if_false]
  · simp only [hex, if_false]
    simp

theorem bulkLoop_append (pre post : List String) (st : BulkState) :
    bulkLoop (pre ++ post) st =
      match bulkLoop pre st with
      | .error store => .error store
      | .ok st1 => bulkLoop post st1 := by
  induction pre generalizing st with
  | nil => simp [bulkLoop]
  | cons id ids ih =>
    simp only [List.cons_append, bulkLoop]
    cases bulkStep st id with
    | error store => rfl
    | ok st1 => exact ih st1

theorem bulkLoop_ok (ids : List String) (st : BulkState)
    (hids : (st.documents.map (fun d => d.id)).Nodup) (hnd : ids.Nodup)
    (hio : ∀ d ∈ st.documents, d.id ∈ ids →
      ¬ (existsSync st.store d.filename = true ∧ d.filename ∈ st.store.unlinkFails)) :
    ∃ st1, bulkLoop ids st = .ok st1
      ∧ st1.documents = st.documents.filter (fun d => decide (d.id ∉ ids))
      ∧ st1.deletedIds
        = st.deletedIds ++ ids.filter (fun id => decide (∃ d ∈ st.documents, d.id = id))
      ∧ st1.store.unlinkFails = st.store.unlinkFails
      ∧ st1.store.dbFile = st.store.dbFile
      ∧ ∀ n, n ∈ st1.store.uploads → n ∈ st.store.uploads := by
  induction ids generalizing st with
  | nil =>
    refine ⟨st, rfl, ?_, by simp, rfl, rfl, fun n hn => hn⟩
    simp
  | cons id ids ih =>
    have hnd1 : ids.Nodup := (List.nodup_cons.1 hnd).2
    have hnotin : id ∉ ids := (List.nodup_cons.1 hnd).1
    by_cases hfound : ∃ d ∈ st.documents, d.id = id
    · cases hf : findIndex id st.documents with
      | none =>
        obtain ⟨d, hd, hdid⟩ := hfound
        exact absurd hdid ((findIndex_eq_none id st.documents).1 hf d hd)
      | some i =>
        obtain ⟨l1, doc, l2, hdocs, hid, hl1, _, _⟩ := findIndex_eq_some id st.documents i hf
        have hdocmem : doc ∈ st.documents := by rw [hdocs]; simp
        have hnofail := hio doc hdocmem (by rw [hid]; exact List.mem_cons_self _ _)
        have hnodup := hids
        rw [hdocs, List.map_append, List.map_cons] at hnodup
        have hparts := List.nodup_append.1 hnodup
        have hl2 : ∀ d ∈ l2, d.id ≠ id := by
          intro d hd heq
          exact (List.nodup_cons.1 hparts.2.1).1 (List.mem_map.2 ⟨d, hd, by rw [heq, hid]⟩)
        have hsub : (l1 ++ l2).Sublist (l1 ++ doc :: l2) :=
          List.Sublist.append (List.Sublist.refl l1) (List.sublist_cons_self doc l2)
        have hrest : ∀ d ∈ l1 ++ l2, d.id ≠ id := by
          intro d hd
          rcases List.mem_append.1 hd with h1 | h2
          · exact hl1 d h1
          · exact hl2 d h2
        have hstep := bulkStep_found st id l1 l2 doc hdocs hid hl1
        -- the state after the step, in both branches
        have hex : ∃ st2, bulkStep st id = .ok st2 ∧ st2.documents = l1 ++ l2
            ∧ st2.deletedIds = st.deletedIds ++ [id]
            ∧ st2.store.unlinkFails = st.store.unlinkFails
            ∧ st2.store.dbFile = st.store.dbFile
            ∧ (∀ n, n ∈ st2.store.uploads → n ∈ st.store.uploads) := by
          by_cases hexi : existsSync st.store doc.filename = true
          · have hfail : doc.filename ∉ st.store.unlinkFails := fun hfail => hnofail ⟨hexi, hfail⟩
            simp only [hexi, hfail, if_true, if_false] at hstep
            exact ⟨_, hstep, rfl, rfl, rfl, rfl, fun n hn => (List.mem_filter.1 hn).1⟩
          · simp only [hexi, if_false] at hstep
            exact ⟨_, hstep, rfl, rfl, rfl, rfl, fun n hn => hn⟩
        obtain ⟨st2, hst2, hd2, hdel2, hu2, hdb2, hup2⟩ := hex
        have hids2 : (st2.documents.map (fun d => d.id)).Nodup := by
          rw [hd2]
          have := hids
          rw [hdocs] at this
          exact this.sublist (hsub.map _)
        have hio2 : ∀ d ∈ st2.documents, d.id ∈ ids →
            ¬ (existsSync st2.store d.filename = true ∧ d.filename ∈ st2.store.unlinkFails) := by
          intro d hd hdi hboth
          rw [hd2] at hd
          have hdmem : d ∈ st.documents := by rw [hdocs]; exact hsub.subset hd
          refine hio d hdmem (List.mem_cons_of_mem _ hdi) ⟨?_, by rw [← hu2]; exact hboth.2⟩
          have h1 : d.filename ∈ st2.store.uploads := by simpa [existsSync] using hboth.1
          simpa [existsSync] using hup2 _ h1
        obtain ⟨st1, hloop, hdoc1, hdel1, hu1, hdb1, hup1⟩ := ih st2 hids2 hnd1 hio2
        refine ⟨st1, by simp only [bulkLoop, hst2, hloop], ?_, ?_, by rw [hu1, hu2],
          by rw [hdb1, hdb2], fun n hn => hup2 n (hup1 n hn)⟩
        · rw [hdoc1, hd2, hdocs, List.filter_append, List.filter_append, List.filter_cons]
          have hdoc : decide (doc.id ∉ id :: ids) = false := by simp [hid]
          simp only [hdoc]
          congr 1
          · apply List.filter_congr
            intro d hd
            have := hl1 d hd
            simp [this]
          · simp only [Bool.false_eq_true, if_false]
            apply List.filter_congr
            intro d hd
            have := hl2 d hd
            simp [this]
        · rw [hdel1, hdel2, hd2, List.filter_cons]
          have hP : decide (∃ d ∈ st.documents, d.id = id) = true := by simpa using hfound
          simp only [hP, if_true, List.append_assoc, List.singleton_append]
          congr 2
          apply List.filter_congr
          intro j hj
          have hji : j ≠ id := fun h => hnotin (h ▸ hj)
          rw [hdocs]
          have hdj : doc.id ≠ j := by rw [hid]; exact fun h => hji h.symm
          simp only [List.mem_append, List.mem_cons, decide_eq_decide]
          constructor
          · rintro ⟨d, hd, hdid⟩
            rcases hd with h1 | h2
            · exact ⟨d, Or.inl h1, hdid⟩
            · exact ⟨d, Or.inr (Or.inr h2), hdid⟩
          · rintro ⟨d, hd, hdid⟩
            rcases hd with h1 | rfl | h2
            · exact ⟨d, Or.inl h1, hdid⟩
            · exact absurd hdid hdj
            · exact ⟨d, Or.inr h2, hdid⟩
    · push_neg at hfound
      have hstep := bulkStep_absent st id hfound
      have hio1 : ∀ d ∈ st.documents, d.id ∈ ids →
          ¬ (existsSync st.store d.filename = true ∧ d.filename ∈ st.store.unlinkFails) :=
        fun d hd hdi => hio d hd (List.mem_cons_of_mem _ hdi)
      obtain ⟨st1, hloop, hdoc1, hdel1, hu1, hdb1, hup1⟩ := ih st hids hnd1 hio1
      refine ⟨st1, by simp only [bulkLoop, hstep, hloop], ?_, ?_, hu1, hdb1, hup1⟩
      · rw [hdoc1]
        apply List.filter_congr
        intro d hd
        have := hfound d hd
        simp [this]
      · rw [hdel1, List.filter_cons]
        have hP : decide (∃ d ∈ st.documents, d.id = id) = false := by simpa using hfound
        simp [hP]

theorem bulkStep_store (st : BulkState) (id : String) :
    (∀ st1, bulkStep st id = .ok st1 →
        st1.store.dbFile = st.store.dbFile ∧ st1.store.unlinkFails = st.store.unlinkFails
          ∧ st1.documents.Sublist st.documents)
      ∧ (∀ store, bulkStep st id = .error store → store = st.store) := by
  cases hf : findIndex id st.documents with
  | none =>
    have hstep := bulkStep_absent st id ((findIndex_eq_none id st.documents).1 hf)
    rw [hstep]
    refine ⟨?_, ?_⟩
    · intro st1 h
      cases h
      exact ⟨rfl, rfl, List.Sublist.refl _⟩
    · intro store h
      cases h
  | some i =>
    obtain ⟨l1, doc, l2, hdocs, hid, hl1, _, _⟩ := findIndex_eq_some id st.documents i hf
    have hsub : (l1 ++ l2).Sublist st.documents := by
      rw [hdocs]
      exact List.Sublist.append (List.Sublist.refl l1) (List.sublist_cons_self doc l2)
    rw [bulkStep_found st id l1 l2 doc hdocs hid hl1]
    refine ⟨?_, ?_⟩
    · intro st1 h
      split at h
      · split at h
        · cases h
        · cases h
          exact ⟨rfl, rfl, hsub⟩
      · cases h
        exact ⟨rfl, rfl, hsub⟩
    · intro store h
      split at h
      · split at h
        · cases h
          rfl
        · cases h
      · cases h

theorem bulkLoop_store (ids : List String) (st : BulkState) :
    (∀ st1, bulkLoop ids st = .ok st1 →
        st1.store.dbFile = st.store.dbFile ∧ st1.store.unlinkFails = st.store.unlinkFails
          ∧ st1.documents.Sublist st.documents)
      ∧ (∀ store, bulkLoop ids st = .error store → store.dbFile = st.store.dbFile) := by
  induction ids generalizing st with
  | nil =>
    refine ⟨?_, ?_⟩
    · intro st1 h
      simp only [bulkLoop] at h
      cases h
      exact ⟨rfl, rfl, List.Sublist.refl _⟩
    · intro store h
      simp only [bulkLoop] at h
      cases h
  | cons id ids ih =>
    obtain ⟨hok, herr⟩ := bulkStep_store st id
    cases hs : bulkStep st id with
    | error store0 =>
      refine ⟨?_, ?_⟩
      · intro st1 h
        simp [bulkLoop, hs] at h
      · intro store h
        simp only [bulkLoop, hs] at h
        cases h
        rw [herr store0 hs]
    | ok st2 =>
      obtain ⟨h1, h2, h3⟩ := hok st2 hs
      obtain ⟨ihok, iherr⟩ := ih st2
      refine ⟨?_, ?_⟩
      · intro st1 h
        simp only [bulkLoop, hs] at h
        obtain ⟨k1, k2, k3⟩ := ihok st1 h
        exact ⟨k1.trans h1, k2.trans h2, k3.trans h3⟩
      · intro store h
        simp only [bulkLoop, hs] at h
        exact (iherr store h).trans h1

/-- C13, as stated, fails: in the store whose first file cannot be removed
the ids are distinct and of `files-1-5`, `b`, `c` only the first has a record,
yet `deleteMany` answers 500 instead of that id and leaves the index as it
was. -/
theorem deleteMany_answer_not_ids :
    DistinctIds lockedStore ∧ ["files-1-5", "b", "c"].Nodup
      ∧ (deleteMany lockedStore ["files-1-5", "b", "c"]).2
        = ⟨500, .error "Server error during bulk delete"⟩
      ∧ readDB (deleteMany lockedStore ["files-1-5", "b", "c"]).1 = readDB lockedStore := by
  decide

/-- C13, amended: for an index with distinct ids and a non-empty id list
without repetitions, when no removal of a matched file throws, `deleteMany`
answers 200 with the ids of the list that had a record, in the order of the
list, and persists the old index without the matched records, the others in
their order. -/
theorem deleteMany_removes_matched (s : Store) (docIds : List String) (hne : docIds ≠ [])
    (hids : DistinctIds s) (hnd : docIds.Nodup)
    (hio : ∀ d ∈ readDB s, d.id ∈ docIds →
      ¬ (existsSync s d.filename = true ∧ d.filename ∈ s.unlinkFails)) :
    (deleteMany s docIds).2
        = ⟨200, .bulkDeleted
            ("Deleted "
              ++ toString (docIds.filter (fun id => decide (∃ d ∈ readDB s, d.id = id))).length
              ++ " documents")
            (docIds.filter (fun id => decide (∃ d ∈ readDB s, d.id = id)))⟩
      ∧ readDB (deleteMany s docIds).1 = (readDB s).filter (fun d => decide (d.id ∉ docIds)) := by
  obtain ⟨st1, hloop, hdoc1, hdel1, _, _, _⟩ := bulkLoop_ok docIds ⟨readDB s, s, []⟩ hids hnd hio
  have hempty : docIds.isEmpty = false := by
    cases docIds with
    | nil => exact absurd rfl hne
    | cons a l => rfl
  simp only [List.nil_append] at hdel1
  simp only [deleteMany, hempty, hloop, hdel1, hdoc1]
  exact ⟨rfl, rfl⟩

/-- A witness of C13: of the ids `files-1-5`, `b`, `c` only the first has a
record; it is removed and it alone is returned. -/
theorem deleteMany_removes_matched_witness :
    DistinctIds sampleStore ∧ ["files-1-5", "b", "c"].Nodup
      ∧ (deleteMany sampleStore ["files-1-5", "b", "c"]).2
        = ⟨200, .bulkDeleted "Deleted 1 documents" ["files-1-5"]⟩
      ∧ readDB (deleteMany sampleStore ["files-1-5", "b", "c"]).1
        = [⟨"files-2-7", "b.txt", "files-2-7.txt", 4, 200, "text/plain"⟩] := by
  have h := deleteMany_removes_matched sampleStore ["files-1-5", "b", "c"] (by decide)
    (by decide) (by decide) (by decide)
  refine ⟨by decide, by decide, ?_, ?_⟩
  · rw [h.1]
    decide
  · rw [h.2]
    decide

/-- C14, as stated, fails: when the file of `files-1-5` cannot be removed, a
bulk delete that reaches it answers 500 and not the ids, it does not process
the id after it, and it has not written the index although the file of the id
before it is gone. -/
theorem deleteMany_aborts_on_unlink_failure :
    deleteMany lockedStore ["files-1-5", "files-2-7"]
        = (lockedStore, ⟨500, .error "Server error during bulk delete"⟩)
      ∧ deleteMany lockedStore ["files-2-7", "files-1-5"]
        = ({ lockedStore with uploads := ["files-1-5.pdf"] },
            ⟨500, .error "Server error during bulk delete"⟩) := by
  decide

/-- C14, amended: `deleteMany` stops at the first removal of a file that
throws: when the ids before a matched id were processed and the removal of
that id's file throws, the ids after it are not processed and the answer is
500 "Server error during bulk delete" instead of the list of ids. -/
theorem deleteMany_aborts (s : Store) (pre post : List String) (id : String) (st : BulkState)
    (l1 l2 : List DocumentRecord) (doc : DocumentRecord)
    (hpre : bulkLoop pre ⟨readDB s, s, []⟩ = .ok st)
    (hdocs : st.documents = l1 ++ doc :: l2) (hid : doc.id = id) (hl1 : ∀ d ∈ l1, d.id ≠ id)
    (hex : existsSync st.store doc.filename = true) (hfail : doc.filename ∈ s.unlinkFails) :
    deleteMany s (pre ++ id :: post)
      = (st.store, ⟨500, .error "Server error during bulk delete"⟩) := by
  have hu : st.store.unlinkFails = s.unlinkFails :=
    ((bulkLoop_store pre ⟨readDB s, s, []⟩).1 st hpre).2.1
  have hstep : bulkStep st id = .error st.store := by
    rw [bulkStep_found st id l1 l2 doc hdocs hid hl1]
    simp [hex, hu, hfail]
  have hempty : (pre ++ id :: post).isEmpty = false := by
    cases pre <;> rfl
  simp only [deleteMany, hempty, bulkLoop_append, hpre, bulkLoop, hstep]
  rfl

/-- A witness of the amended C14: the bulk delete of `files-2-7` and then of
the locked `files-1-5`. -/
theorem deleteMany_aborts_witness :
    bulkLoop ["files-2-7"] ⟨readDB lockedStore, lockedStore, []⟩
        = .ok ⟨[⟨"files-1-5", "a.pdf", "files-1-5.pdf", 3, 100, "application/pdf"⟩],
            { lockedStore with uploads := ["files-1-5.pdf"] }, ["files-2-7"]⟩
      ∧ deleteMany lockedStore (["files-2-7"] ++ "files-1-5" :: [])
        = ({ lockedStore with uploads := ["files-1-5.pdf"] },
            ⟨500, .error "Server error during bulk delete"⟩) :=
  ⟨by decide,
    deleteMany_aborts lockedStore ["files-2-7"] [] "files-1-5"
      ⟨[⟨"files-1-5", "a.pdf", "files-1-5.pdf", 3, 100, "application/pdf"⟩],
        { lockedStore with uploads := ["files-1-5.pdf"] }, ["files-2-7"]⟩
      [] [] ⟨"files-1-5", "a.pdf", "files-1-5.pdf", 3, 100, "application/pdf"⟩
      (by decide) (by decide) (by decide) (by decide) (by decide) (by decide)⟩

/-! ## Content types of the streaming routes -/

theorem findDoc_some (id : String) (docs : List DocumentRecord) (doc : DocumentRecord)
    (h : findDoc id docs = some doc) : doc ∈ docs ∧ doc.id = id := by
  induction docs with
  | nil => simp [findDoc] at h
  | cons d ds ih =>
    simp only [findDoc] at h
    split at h
    · rename_i hd
      cases h
      exact ⟨List.mem_cons_self _ _, hd⟩
    · exact ⟨List.mem_cons_of_mem _ (ih h).1, (ih h).2⟩

/-- C15: the content type of the view route is read off the lower-cased
extension of the title: `text/plain` (with `charset=utf-8`) for `.md`, `.txt`,
`.csv`, `.rtf`, `application/json` for `.json`, `text/html` for `.html` and
`.htm`, `text/xml` for `.xml`, `application/pdf` for `.pdf`, whatever the
stored mimetype is; for any other extension it is the stored mimetype when
that is non-empty and `application/octet-stream` otherwise. For a record
that is found and has its file, the route streams with this content type
when the title and the content type are valid header values and answers 500
when one of them is not. -/
theorem viewContentType_spec (doc : DocumentRecord) :
    (toLowerCase (extname doc.title) ∈ [".md", ".txt", ".csv", ".rtf"] →
        viewContentType doc = "text/plain; charset=utf-8")
      ∧ (toLowerCase (extname doc.title) = ".json" →
        viewContentType doc = "application/json; charset=utf-8")
      ∧ (toLowerCase (extname doc.title) ∈ [".html", ".htm"] →
        viewContentType doc = "text/html; charset=utf-8")
      ∧ (toLowerCase (extname doc.title) = ".xml" →
        viewContentType doc = "text/xml; charset=utf-8")
      ∧ (toLowerCase (extname doc.title) = ".pdf" → viewContentType doc = "application/pdf")
      ∧ (toLowerCase (extname doc.title)
            ∉ [".md", ".txt", ".json", ".csv", ".html", ".htm", ".xml", ".pdf", ".rtf"] →
          viewContentType doc
            = if doc.mimetype = "" then "application/octet-stream" else doc.mimetype)
      ∧ (∀ s id, findDoc id (readDB s) = some doc → existsSync s doc.filename = true →
          viewDocument s id
            = if headerValueValid doc.title = true ∧ headerValueValid (viewContentType doc) = true
              then .stream "inline" doc.title (viewContentType doc) doc.filename
              else .error 500 "Server error during view") := by
  refine ⟨?_, ?_, ?_, ?_, ?_, ?_, ?_⟩
  · intro h
    simp only [List.mem_cons, List.mem_singleton, List.not_mem_nil, or_false] at h
    rcases h with h | h | h | h <;>
      simp [viewContentType, h, viewMimetypesAt, viewMimetypes, orElse]
  · intro h
    simp [viewContentType, h, viewMimetypesAt, viewMimetypes, orElse]
  · intro h
    simp only [List.mem_cons, List.mem_singleton, List.not_mem_nil, or_false] at h
    rcases h with h | h <;>
      simp [viewContentType, h, viewMimetypesAt, viewMimetypes, orElse]
  · intro h
    simp [viewContentType, h, viewMimetypesAt, viewMimetypes, orElse]
  · intro h
    simp [viewContentType, h, viewMimetypesAt, viewMimetypes, orElse]
  · intro h
    simp only [List.mem_cons, List.mem_singleton, List.not_mem_nil, or_false, not_or] at h
    obtain ⟨h1, h2, h3, h4, h5, h6, h7, h8, h9⟩ := h
    have hnone : viewMimetypesAt (toLowerCase (extname doc.title)) viewMimetypes = none := by
      simp [viewMimetypesAt, viewMimetypes, Ne.symm h1, Ne.symm h2, Ne.symm h3, Ne.symm h4,
        Ne.symm h5, Ne.symm h6, Ne.symm h7, Ne.symm h8, Ne.symm h9]
    simp [viewContentType, hnone, orElse]
  · intro s id hfind hex
    simp only [viewDocument, hfind, hex]
    by_cases h1 : headerValueValid doc.title = true
    · by_cases h2 : headerValueValid (viewContentType doc) = true
      · simp [h1, h2]
      · simp [h1, h2]
    · simp [h1]

/-- A witness of C15: a markdown title stored with a binary mimetype is viewed
as plain text, an unmapped extension falls back to the stored mimetype, the
first record of the sample store is streamed as `application/pdf`, and for
the title `文档.pdf` the content type is `application/pdf` as well but the
route answers 500, the title being no valid header value. -/
theorem viewContentType_spec_witness :
    toLowerCase (extname "Notes.MD") ∈ [".md", ".txt", ".csv", ".rtf"]
      ∧ viewContentType ⟨"files-4-1", "Notes.MD", "files-4-1.MD", 9, 400,
          "application/octet-stream"⟩ = "text/plain; charset=utf-8"
      ∧ viewContentType ⟨"files-4-2", "sheet.xlsx", "files-4-2.xlsx", 9, 400,
          "application/vnd.ms-excel"⟩ = "application/vnd.ms-excel"
      ∧ viewDocument sampleStore "files-1-5"
        = .stream "inline" "a.pdf" "application/pdf" "files-1-5.pdf"
      ∧ viewContentType ⟨"files-5-2", "文档.pdf", "files-5-2.pdf", 9, 500, "application/pdf"⟩
        = "application/pdf"
      ∧ viewDocument unicodeTitleStore "files-5-2" = .error 500 "Server error during view" := by
  refine ⟨by decide, ?_, ?_, ?_, ?_, ?_⟩
  · exact (viewContentType_spec ⟨"files-4-1", "Notes.MD", "files-4-1.MD", 9, 400,
      "application/octet-stream"⟩).1 (by decide)
  · rw [(viewContentType_spec ⟨"files-4-2", "sheet.xlsx", "files-4-2.xlsx", 9, 400,
      "application/vnd.ms-excel"⟩).2.2.2.2.2.1 (by decide)]
    decide
  · rw [(viewContentType_spec ⟨"files-1-5", "a.pdf", "files-1-5.pdf", 3, 100,
      "application/pdf"⟩).2.2.2.2.2.2 sampleStore "files-1-5" (by decide) (by decide)]
    decide
  · exact (viewContentType_spec ⟨"files-5-2", "文档.pdf", "files-5-2.pdf", 9, 500,
      "application/pdf"⟩).2.2.2.2.1 (by decide)
  · rw [(viewContentType_spec ⟨"files-5-2", "文档.pdf", "files-5-2.pdf", 9, 500,
      "application/pdf"⟩).2.2.2.2.2.2 unicodeTitleStore "files-5-2" (by decide) (by decide)]
    decide

/-- C16, as stated, fails: a record whose stored mimetype is empty is
downloaded as `application/octet-stream`, which is not its stored mimetype. -/
theorem download_not_verbatim :
    downloadDocument untypedStore "files-3-9"
        = .stream "attachment" "blob.doc" "application/octet-stream" "files-3-9.doc"
      ∧ downloadContentType ⟨"files-3-9", "blob.doc", "files-3-9.doc", 7, 300, ""⟩
        ≠ (⟨"files-3-9", "blob.doc", "files-3-9.doc", 7, 300, ""⟩ : DocumentRecord).mimetype := by
  decide

/-- C16, amended: the content type of the download route is the stored
mimetype verbatim when that is non-empty and `application/octet-stream` when
it is empty; it does not depend on the title. For a record that is found and
has its file, the route streams with this content type when the title and the
content type are valid header values and answers 500 when one of them is
not. -/
theorem downloadContentType_spec (doc : DocumentRecord) :
    (doc.mimetype ≠ "" → downloadContentType doc = doc.mimetype)
      ∧ (doc.mimetype = "" → downloadContentType doc = "application/octet-stream")
      ∧ (∀ title, downloadContentType { doc with title := title } = downloadContentType doc)
      ∧ (∀ s id, findDoc id (readDB s) = some doc → existsSync s doc.filename = true →
          downloadDocument s id
            = if headerValueValid doc.title = true
                ∧ headerValueValid (downloadContentType doc) = true
              then .stream "attachment" doc.title (downloadContentType doc) doc.filename
              else .error 500 "Server error during download") := by
  refine ⟨?_, ?_, fun _ => rfl, ?_⟩
  · intro h
    simp [downloadContentType, orElse, h]
  · intro h
    simp [downloadContentType, orElse, h]
  · intro s id hfind hex
    simp only [downloadDocument, hfind, hex]
    by_cases h1 : headerValueValid doc.title = true
    · by_cases h2 : headerValueValid (downloadContentType doc) = true
      · simp [h1, h2]
      · simp [h1, h2]
    · simp [h1]

/-- A witness of the amended C16 on the first record of the sample store, and
on the title `文档.pdf`, for which the route answers 500. -/
theorem downloadContentType_spec_witness :
    ("application/pdf" : String) ≠ ""
      ∧ downloadContentType ⟨"files-1-5", "a.pdf", "files-1-5.pdf", 3, 100, "application/pdf"⟩
        = "application/pdf"
      ∧ downloadDocument sampleStore "files-1-5"
        = .stream "attachment" "a.pdf" "application/pdf" "files-1-5.pdf"
      ∧ downloadDocument unicodeTitleStore "files-5-2"
        = .error 500 "Server error during download" := by
  have h := downloadContentType_spec
    ⟨"files-1-5", "a.pdf", "files-1-5.pdf", 3, 100, "application/pdf"⟩
  refine ⟨by decide, h.1 (by decide), ?_, ?_⟩
  · rw [h.2.2.2 sampleStore "files-1-5" (by decide) (by decide)]
    decide
  · rw [(downloadContentType_spec ⟨"files-5-2", "文档.pdf", "files-5-2.pdf", 9, 500,
      "application/pdf"⟩).2.2.2 unicodeTitleStore "files-5-2" (by decide) (by decide)]
    decide

/-! ## The bulk download -/

/-- C17: with the two files of the sample store lost, no id resolves to a
record whose file exists, and the bulk download still answers 200 with an
archive of no entries instead of 404. -/
theorem buildArchive_missing_blobs :
    (∀ d ∈ readDB emptiedStore, existsSync emptiedStore d.filename = false)
      ∧ buildArchive emptiedStore ["files-1-5", "files-2-7"] = .zip []
      ∧ (buildArchive emptiedStore ["files-1-5", "files-2-7"]).status = 200 := by
  decide

theorem filter_or_perm (p q : DocumentRecord → Bool) (l : List DocumentRecord)
    (hdisj : ∀ d, p d = true → q d = true → False) :
    (l.filter (fun d => p d || q d)).Perm (l.filter p ++ l.filter q) := by
  induction l with
  | nil => simp
  | cons d ds ih =>
    by_cases hp : p d = true
    · have hq : q d = false := by
        by_contra hq
        exact hdisj d hp (by simpa using hq)
      simp only [List.filter_cons, hp, hq, Bool.or_false, if_true, List.cons_append]
      simpa using List.Perm.cons d ih
    · by_cases hq : q d = true
      · have hp' : p d = false := by simpa using hp
        simp only [List.filter_cons, hp', hq, Bool.false_or, if_true]
        simp only [Bool.false_eq_true, if_false]
        exact (List.Perm.cons d ih).trans List.perm_middle.symm
      · have hp' : p d = false := by simpa using hp
        have hq' : q d = false := by simpa using hq
        simp only [List.filter_cons, hp', hq', Bool.or_false]
        simpa using ih

theorem buildArchive_zip (s : Store) (docIds : List String) :
    (buildArchive s docIds).entries
      = ((readDB s).filter (fun d => decide (d.id ∈ docIds ∧ d.filename ∈ s.uploads))).map
          (fun d => ⟨d.filename, d.title⟩) := by
  have hex : ∀ d : DocumentRecord, existsSync s d.filename = decide (d.filename ∈ s.uploads) := by
    intro d
    simp [existsSync]
  unfold buildArchive
  split
  · rename_i hempty
    have : docIds = [] := by simpa using hempty
    subst this
    simp [ArchiveReply.entries]
  · simp only []
    split
    · rename_i hnone
      simp only [List.isEmpty_iff, List.filter_eq_nil_iff] at hnone
      simp only [ArchiveReply.entries]
      symm
      rw [List.map_eq_nil_iff, List.filter_eq_nil_iff]
      intro d hd hboth
      simp only [decide_eq_true_eq] at hboth
      exact hnone d hd (by simpa using hboth.1)
    · simp only [ArchiveReply.entries, List.filter_filter]
      congr 1
      apply List.filter_congr
      intro d _
      rw [hex]
      simp [Bool.and_comm]

/-- C18: the entries the bulk download adds to the archive are, in index
order, one entry named by the title for each record whose id is among the
given ids and whose file exists, and nothing else; they are streamed as an
archive as soon as the id list is non-empty and some record matches; two
distinct ids that each resolve to one record with its file give exactly the
two entries named by the two titles. -/
theorem buildArchive_entries (s : Store) (docIds : List String) :
    (buildArchive s docIds).entries
        = ((readDB s).filter (fun d => decide (d.id ∈ docIds ∧ d.filename ∈ s.uploads))).map
            (fun d => ⟨d.filename, d.title⟩)
      ∧ (docIds ≠ [] → (∃ d ∈ readDB s, d.id ∈ docIds) →
          buildArchive s docIds = .zip (buildArchive s docIds).entries)
      ∧ (∀ a b da db, a ≠ b →
          (readDB s).filter (fun d => decide (d.id = a)) = [da] →
          (readDB s).filter (fun d => decide (d.id = b)) = [db] →
          da.filename ∈ s.uploads → db.filename ∈ s.uploads →
          ((buildArchive s [a, b]).entries.map (fun e => e.name)).Perm [da.title, db.title]
            ∧ (buildArchive s [a, b]).entries.length = 2) := by
  refine ⟨buildArchive_zip s docIds, ?_, ?_⟩
  · intro hne hsome
    obtain ⟨d, hd, hdid⟩ := hsome
    have hempty : docIds.isEmpty = false := by
      cases docIds with
      | nil => exact absurd rfl hne
      | cons x l => rfl
    have hmatch : ((readDB s).filter (fun doc => docIds.contains doc.id)).isEmpty = false := by
      rw [Bool.eq_false_iff]
      intro hcon
      simp only [List.isEmpty_iff, List.filter_eq_nil_iff] at hcon
      exact hcon d hd (by simpa using hdid)
    simp only [buildArchive, hempty, hmatch, ArchiveReply.entries]
    rfl
  · intro a b da db hab ha hb hdaf hdbf
    have hperm : ((readDB s).filter
        (fun d => decide (d.id ∈ [a, b] ∧ d.filename ∈ s.uploads))).Perm [da, db] := by
      have hsplit : (readDB s).filter (fun d => decide (d.id ∈ [a, b] ∧ d.filename ∈ s.uploads))
          = ((readDB s).filter (fun d => decide (d.id = a) || decide (d.id = b))).filter
              (fun d => decide (d.filename ∈ s.uploads)) := by
        rw [List.filter_filter]
        apply List.filter_congr
        intro d _
        simp [Bool.and_comm]
      have hor := filter_or_perm (fun d => decide (d.id = a)) (fun d => decide (d.id = b))
        (readDB s) (by
          intro d h1 h2
          simp only [decide_eq_true_eq] at h1 h2
          exact hab (h1.symm.trans h2))
      rw [ha, hb] at hor
      rw [hsplit]
      have hfil := hor.filter (fun d => decide (d.filename ∈ s.uploads))
      have hkeep : ([da] ++ [db]).filter (fun d => decide (d.filename ∈ s.uploads)) = [da, db] := by
        simp [hdaf, hdbf]
      rw [hkeep] at hfil
      exact hfil
    rw [buildArchive_zip]
    refine ⟨?_, ?_⟩
    · rw [List.map_map]
      exact hperm.map _
    · rw [List.length_map, hperm.length_eq]
      rfl

/-- A witness of C18: the two ids of the sample store give the two entries
`a.pdf` and `b.txt`; an unknown id and a lost file give none. -/
theorem buildArchive_entries_witness :
    buildArchive sampleStore ["files-1-5", "files-2-7", "nope"]
        = .zip [⟨"files-1-5.pdf", "a.pdf"⟩, ⟨"files-2-7.txt", "b.txt"⟩]
      ∧ (((buildArchive sampleStore ["files-1-5", "files-2-7"]).entries.map
            (fun e => e.name)).Perm ["a.pdf", "b.txt"]
          ∧ (buildArchive sampleStore ["files-1-5", "files-2-7"]).entries.length = 2) := by
  have h := buildArchive_entries sampleStore ["files-1-5", "files-2-7", "nope"]
  refine ⟨?_, ?_⟩
  · rw [h.2.1 (by decide) (by decide), h.1]
    decide
  · exact (buildArchive_entries sampleStore ["files-1-5", "files-2-7"]).2.2
      "files-1-5" "files-2-7"
      ⟨"files-1-5", "a.pdf", "files-1-5.pdf", 3, 100, "application/pdf"⟩
      ⟨"files-2-7", "b.txt", "files-2-7.txt", 4, 200, "text/plain"⟩
      (by decide) (by decide) (by decide) (by decide) (by decide)

/-! ## Distinct ids -/

theorem deleteOne_sublist (s : Store) (id : String) :
    (readDB (deleteOne s id).1).Sublist (readDB s) := by
  cases hf : findIndex id (readDB s) with
  | none =>
    simp only [deleteOne, hf]
    exact List.Sublist.refl _
  | some i =>
    obtain ⟨l1, doc, l2, hdocs, hid, hl1, _, _⟩ := findIndex_eq_some id (readDB s) i hf
    have hread : readDB (deleteOne s id).1 = l1 ++ l2 := by
      rw [deleteOne_found s id l1 l2 doc hdocs hid hl1]
      split
      · split <;> rfl
      · rfl
    rw [hread, hdocs]
    exact List.Sublist.append (List.Sublist.refl l1) (List.sublist_cons_self doc l2)

theorem deleteMany_sublist (s : Store) (docIds : List String) :
    (readDB (deleteMany s docIds).1).Sublist (readDB s) := by
  unfold deleteMany
  split
  · exact List.Sublist.refl _
  · obtain ⟨hok, herr⟩ := bulkLoop_store docIds ⟨readDB s, s, []⟩
    cases hl : bulkLoop docIds ⟨readDB s, s, []⟩ with
    | error store =>
      have hdb : store.dbFile = s.dbFile := herr store hl
      simp only [readDB, hdb]
      exact List.Sublist.refl _
    | ok st =>
      exact (hok st hl).2.2

theorem ingest_index (s : Store) (parts : List UploadPart) :
    readDB (ingest s parts).1 = readDB s
      ∨ readDB (ingest s parts).1 = readDB s ++ parts.map (fun p => newDoc (storeFile p) p.clock) := by
  have hdb := uploadArray_dbFile parts s []
  by_cases hall : ∀ p ∈ parts, fileFilter p.file = .ok true
  · by_cases hne : parts = []
    · subst hne
      exact Or.inl rfl
    · right
      rw [ingest_accepted s parts hne hall]
      rfl
  · push_neg at hall
    obtain ⟨p, hp, hrej⟩ := hall
    rcases fileFilter_cases p.file with hok | ⟨msg, hmsg⟩
    · exact absurd hok hrej
    · obtain ⟨msg1, h1⟩ := ingest_rejected s parts p hp msg hmsg
      left
      rw [h1]
      simp [readDB, hdb]

/-- C19, as stated, fails: two files of one batch that drew the same
`Date.now()` and the same random number get distinct storage filenames
(`.pdf` and `.txt`) and the same id, so an index with distinct ids has two
records of one id after the upload. -/
theorem ids_collide :
    DistinctIds ⟨some [], [], []⟩
      ∧ FreshNames ⟨some [], [], []⟩ sameStampBatch
      ∧ (ingest ⟨some [], [], []⟩ sameStampBatch).2.status = 201
      ∧ (readDB (ingest ⟨some [], [], []⟩ sameStampBatch).1).map (fun d => d.id)
        = ["files-1-5", "files-1-5"]
      ∧ ¬ DistinctIds (ingest ⟨some [], [], []⟩ sameStampBatch).1 := by
  decide

/-- C19, amended: distinct ids are kept by every upload whose generated ids
(the storage filenames without their extension) are new, pairwise distinct
and not an id of the index, and by every single delete and bulk delete. -/
theorem distinct_ids_preserved (s : Store) (hids : DistinctIds s) :
    (∀ parts, FreshIds s parts → DistinctIds (ingest s parts).1)
      ∧ (∀ id, DistinctIds (deleteOne s id).1)
      ∧ (∀ docIds, DistinctIds (deleteMany s docIds).1) := by
  refine ⟨?_, ?_, ?_⟩
  · intro parts hfresh
    unfold DistinctIds
    rcases ingest_index s parts with h | h
    · rw [h]
      exact hids
    · rw [h, List.map_append, List.map_map, List.nodup_append]
      refine ⟨hids, hfresh.1, ?_⟩
      intro n hn1 hn2
      obtain ⟨p, hp, rfl⟩ := List.mem_map.1 hn2
      exact hfresh.2 p hp hn1
  · intro id
    exact List.Nodup.sublist ((deleteOne_sublist s id).map _) hids
  · intro docIds
    exact List.Nodup.sublist ((deleteMany_sublist s docIds).map _) hids

/-- A witness of the amended C19 on the sample store. -/
theorem distinct_ids_preserved_witness :
    DistinctIds sampleStore ∧ FreshIds sampleStore sampleBatch
      ∧ DistinctIds (ingest sampleStore sampleBatch).1
      ∧ DistinctIds (deleteOne sampleStore "files-1-5").1
      ∧ DistinctIds (deleteMany sampleStore ["files-2-7", "nope"]).1 :=
  ⟨by decide, by decide,
    (distinct_ids_preserved sampleStore (by decide)).1 sampleBatch (by decide),
    (distinct_ids_preserved sampleStore (by decide)).2.1 "files-1-5",
    (distinct_ids_preserved sampleStore (by decide)).2.2 ["files-2-7", "nope"]⟩

/-! ## An index file that cannot be read -/

theorem jsSlice_nil {α : Type} (start stop : Int) : jsSlice ([] : List α) start stop = [] := by
  simp [jsSlice]

/-- C21: when `db.json` is missing, unreadable or not valid JSON, `readDB`
returns the empty index; a listing then answers 200 with no documents and
`total` 0 for every query, and an upload persists an index whose records are
all records of the new batch: exactly the records of the batch when the batch
is non-empty and accepted. -/
theorem readDB_unreadable (s : Store) (h : s.dbFile = none) :
    readDB s = []
      ∧ (∀ (cm : CaseMapping) query,
          listDocuments cm s query = ⟨200, .listing [] 0 query.page query.pageSize⟩)
      ∧ (∀ parts, ∀ d ∈ readDB (ingest s parts).1,
          d ∈ parts.map (fun p => newDoc (storeFile p) p.clock))
      ∧ (∀ parts, parts ≠ [] → (∀ p ∈ parts, fileFilter p.file = .ok true) →
          (ingest s parts).1.dbFile = some (parts.map (fun p => newDoc (storeFile p) p.clock))
            ∧ (ingest s parts).2 = ⟨201, .uploaded "Upload successful"
                (parts.map (fun p => newDoc (storeFile p) p.clock))⟩) := by
  have hread : readDB s = [] := by simp [readDB, h]
  refine ⟨hread, ?_, ?_, ?_⟩
  · intro cm query
    simp [listDocuments, sortedDocs, hread, filterDocs, jsSort, jsSlice_nil]
  · intro parts d hd
    rcases ingest_index s parts with hi | hi
    · rw [hi, hread] at hd
      cases hd
    · rw [hi, hread] at hd
      simpa using hd
  · intro parts hne hacc
    rw [ingest_accepted s parts hne hacc, hread]
    exact ⟨rfl, rfl⟩

/-- A witness of C21: a listing and an upload with no index file at all. -/
theorem readDB_unreadable_witness :
    (⟨none, [], []⟩ : Store).dbFile = none
      ∧ listDocuments asciiCase ⟨none, [], []⟩ ListQuery.defaults = ⟨200, .listing [] 0 1 10⟩
      ∧ (ingest ⟨none, [], []⟩ sampleBatch).1.dbFile
        = some [⟨"files-1700000000000-12345", "report.pdf", "files-1700000000000-12345.pdf", 4,
              1700000000001, "application/pdf"⟩,
            ⟨"files-1700000000000-67890", "data.csv", "files-1700000000000-67890.csv", 3,
              1700000000001, "text/csv"⟩] := by
  have h := readDB_unreadable ⟨none, [], []⟩ rfl
  refine ⟨rfl, ?_, ?_⟩
  · rw [h.2.1 asciiCase ListQuery.defaults]
    rfl
  · rw [(h.2.2.2 sampleBatch (by decide) (by decide)).1]
    decide

/-! ## The select-all checkbox -/

/-- C22: the select-all checkbox compares lengths only. With two rows ticked
on page 1 and page 2 (two documents) on display it is checked although no
document on display is selected; with page 1 selected as a whole, a row of
page 2 ticked as well and page 1 on display again, it is not checked although
every document on display is selected. -/
theorem isAllSelected_counts_lengths :
    (isAllSelected pageTwo
          (uiRun ⟨pageOne, []⟩
            [.rowCheckbox "files-0-0", .rowCheckbox "files-3-0", .showPage pageTwo]).selectedDocIds
          = true
        ∧ ∀ d ∈ pageTwo, d.id ∉ (uiRun ⟨pageOne, []⟩
            [.rowCheckbox "files-0-0", .rowCheckbox "files-3-0", .showPage pageTwo]).selectedDocIds)
      ∧ (isAllSelected pageOne
          (uiRun ⟨pageOne, []⟩
            [.selectAllCheckbox true, .showPage pageTwo, .rowCheckbox "files-10-0",
              .showPage pageOne]).selectedDocIds
          = false
        ∧ pageOne ≠ []
        ∧ ∀ d ∈ pageOne, d.id ∈ (uiRun ⟨pageOne, []⟩
            [.selectAllCheckbox true, .showPage pageTwo, .rowCheckbox "files-10-0",
              .showPage pageOne]).selectedDocIds) := by
  decide

/-! ## Two uploads at once -/

theorem ingest_eq_callback (s : Store) (parts : List UploadPart) :
    ingest s parts
      = uploadCallback (uploadArray s parts []).1 parts (uploadArray s parts []).2 := by
  unfold ingest uploadCallback
  generalize uploadArray s parts [] = r
  obtain ⟨s1, res⟩ := r
  cases res <;> rfl

theorem advance_received (s : Store) (parts : List UploadPart)
    (hacc : ∀ p ∈ parts, fileFilter p.file = .ok true) :
    advance s (.received parts)
      = ((uploadArray s parts []).1, .parsed parts (.ok (parts.map storeFile))) := by
  have h := (uploadArray_ok parts s [] hacc).1
  simp only [List.reverse_nil, List.nil_append] at h
  simp only [advance, h]

theorem advance_parsed (s : Store) (parts : List UploadPart) (hne : parts ≠ []) :
    advance s (.parsed parts (.ok (parts.map storeFile)))
      = (writeDB s (readDB s ++ batchRecords parts),
          .answered ⟨201, .uploaded "Upload successful" (batchRecords parts)⟩) := by
  have hnotempty : (parts.map storeFile).isEmpty = false := by
    cases parts with
    | nil => exact absurd rfl hne
    | cons p rest => rfl
  simp only [advance, uploadCallback, hnotempty, zip_storeFile, batchRecords]
  rfl

theorem readDB_of_dbFile (s t : Store) (h : s.dbFile = t.dbFile) : readDB s = readDB t := by
  simp [readDB, h]

theorem readDB_of_some (s : Store) (docs : List DocumentRecord) (h : s.dbFile = some docs) :
    readDB s = docs := by
  simp [readDB, h]

theorem takeTurn_interleaved (s : Store) (A B : List UploadPart)
    (hAne : A ≠ []) (hAacc : ∀ p ∈ A, fileFilter p.file = .ok true)
    (hBne : B ≠ []) (hBacc : ∀ p ∈ B, fileFilter p.file = .ok true)
    (st : TwoUploads) (h : Interleaved s A B st) (firstRuns : Bool) :
    Interleaved s A B (takeTurn st firstRuns) := by
  obtain ⟨store, first, second⟩ := st
  obtain ⟨h1, h2, h3⟩ := h
  simp only at h1 h2 h3
  cases firstRuns
  · -- the second request runs
    rcases h2 with h2 | h2 | h2
    · subst h2
      have hdb := uploadArray_dbFile B store []
      refine ⟨h1, ?_, ?_⟩
      · simp only [takeTurn, advance_received store B hBacc]
        exact Or.inr (Or.inl rfl)
      · simp only [takeTurn, advance_received store B hBacc, Bool.false_eq_true, if_false]
        rcases h1 with h1 | h1 | h1 <;> subst h1 <;>
          simp only [RequestPhase.isAnswered] at h3 ⊢ <;> rw [hdb] <;> exact h3
    · subst h2
      refine ⟨h1, ?_, ?_⟩
      · simp only [takeTurn, advance_parsed store B hBne]
        exact Or.inr (Or.inr rfl)
      · simp only [takeTurn, advance_parsed store B hBne, Bool.false_eq_true, if_false]
        rcases h1 with h1 | h1 | h1 <;> subst h1 <;>
          simp only [RequestPhase.isAnswered] at h3 ⊢
        · rw [readDB_of_dbFile store s h3]
          rfl
        · rw [readDB_of_dbFile store s h3]
          rfl
        · rw [readDB_of_some store _ h3]
          exact Or.inl rfl
    · subst h2
      exact ⟨h1, Or.inr (Or.inr rfl), h3⟩
  · -- the first request runs
    rcases h1 with h1 | h1 | h1
    · subst h1
      have hdb := uploadArray_dbFile A store []
      refine ⟨?_, h2, ?_⟩
      · simp only [takeTurn, advance_received store A hAacc]
        exact Or.inr (Or.inl rfl)
      · simp only [takeTurn, advance_received store A hAacc, if_true]
        rcases h2 with h2 | h2 | h2 <;> subst h2 <;>
          simp only [RequestPhase.isAnswered] at h3 ⊢ <;> rw [hdb] <;> exact h3
    · subst h1
      refine ⟨?_, h2, ?_⟩
      · simp only [takeTurn, advance_parsed store A hAne]
        exact Or.inr (Or.inr rfl)
      · simp only [takeTurn, advance_parsed store A hAne, if_true]
        rcases h2 with h2 | h2 | h2 <;> subst h2 <;>
          simp only [RequestPhase.isAnswered] at h3 ⊢
        · rw [readDB_of_dbFile store s h3]
          rfl
        · rw [readDB_of_dbFile store s h3]
          rfl
        · rw [readDB_of_some store _ h3]
          exact Or.inr rfl
    · subst h1
      exact ⟨Or.inr (Or.inr rfl), h2, h3⟩

theorem runSchedule_interleaved (s : Store) (A B : List UploadPart)
    (hAne : A ≠ []) (hAacc : ∀ p ∈ A, fileFilter p.file = .ok true)
    (hBne : B ≠ []) (hBacc : ∀ p ∈ B, fileFilter p.file = .ok true)
    (turns : List Bool) (st : TwoUploads) (h : Interleaved s A B st) :
    Interleaved s A B (runSchedule st turns) := by
  induction turns generalizing st with
  | nil => exact h
  | cons t rest ih =>
    simp only [runSchedule, List.foldl_cons]
    exact ih _ (takeTurn_interleaved s A B hAne hAacc hBne hBacc st h t)

theorem advance_stage (s : Store) (ph : RequestPhase) :
    (advance s ph).2.stage = min 2 (ph.stage + 1) := by
  cases ph <;> rfl

theorem runSchedule_stage (turns : List Bool) (st : TwoUploads) :
    (runSchedule st turns).first.stage = min 2 (st.first.stage + turns.count true)
      ∧ (runSchedule st turns).second.stage = min 2 (st.second.stage + turns.count false) := by
  induction turns generalizing st with
  | nil =>
    have h1 : st.first.stage ≤ 2 := by cases st.first <;> simp [RequestPhase.stage]
    have h2 : st.second.stage ≤ 2 := by cases st.second <;> simp [RequestPhase.stage]
    simp only [runSchedule, List.foldl_nil, List.count_nil, Nat.add_zero]
    omega
  | cons t rest ih =>
    obtain ⟨ih1, ih2⟩ := ih (takeTurn st t)
    simp only [runSchedule, List.foldl_cons] at ih1 ih2 ⊢
    rw [ih1, ih2]
    cases t
    · have hf : (takeTurn st false).first = st.first := rfl
      have hs : (takeTurn st false).second.stage = min 2 (st.second.stage + 1) :=
        advance_stage st.store st.second
      rw [hf, hs]
      simp only [List.count_cons]
      simp
      omega
    · have hs : (takeTurn st true).second = st.second := rfl
      have hf : (takeTurn st true).first.stage = min 2 (st.first.stage + 1) :=
        advance_stage st.store st.first
      rw [hf, hs]
      simp only [List.count_cons]
      simp
      omega

theorem listDocuments_whole (cm : CaseMapping) (s : Store) (sortBy sortOrder : String)
    (pageSize : Int) (hpos : 0 < pageSize) (hlen : ((readDB s).length : Int) ≤ pageSize) :
    ((listDocuments cm s ⟨1, pageSize, sortBy, sortOrder, ""⟩).body.documents).Perm (readDB s) := by
  have hslice := (listDocuments_slice cm s ⟨1, pageSize, sortBy, sortOrder, ""⟩
    (le_refl _) hpos).1
  have hperm : (sortedDocs cm ⟨1, pageSize, sortBy, sortOrder, ""⟩ (readDB s)).Perm (readDB s) := by
    simp only [sortedDocs]
    have hf : filterDocs cm "" (readDB s) = readDB s := by simp [filterDocs]
    rw [hf]
    exact jsSort_perm _ _
  have h1 : (1 : Int).toNat = 1 := rfl
  rw [hslice]
  simp only [Body.documents, h1, Nat.sub_self, Nat.zero_mul, Nat.sub_zero, Nat.one_mul,
    List.drop_zero]
  rw [List.take_of_length_le (by rw [hperm.length_eq]; omega)]
  exact hperm

/-- C20: two uploads of non-empty accepted batches `A` and `B` that are in
flight at once on the store `s`, under every interleaving of their turns in
which each request gets the two turns it needs: both are answered 201 with
their own records, `db.json` holds an index, namely the old records followed
by the records of both batches in the order the two callbacks ran, and a
listing of page 1 without text filter and with `pageSize ≥ total` returns the
old records and the records of both batches, none lost. The interleavings in
which one request is done before the other starts are the two orders of
`ingest`. -/
theorem concurrent_uploads (s : Store) (A B : List UploadPart)
    (hAne : A ≠ []) (hAacc : ∀ p ∈ A, fileFilter p.file = .ok true)
    (hBne : B ≠ []) (hBacc : ∀ p ∈ B, fileFilter p.file = .ok true)
    (turns : List Bool) (hfirst : 2 ≤ turns.count true) (hsecond : 2 ≤ turns.count false) :
    (runSchedule ⟨s, .received A, .received B⟩ turns).first
        = .answered ⟨201, .uploaded "Upload successful" (batchRecords A)⟩
      ∧ (runSchedule ⟨s, .received A, .received B⟩ turns).second
        = .answered ⟨201, .uploaded "Upload successful" (batchRecords B)⟩
      ∧ ((runSchedule ⟨s, .received A, .received B⟩ turns).store.dbFile
            = some (readDB s ++ batchRecords A ++ batchRecords B)
          ∨ (runSchedule ⟨s, .received A, .received B⟩ turns).store.dbFile
            = some (readDB s ++ batchRecords B ++ batchRecords A))
      ∧ (∀ (cm : CaseMapping) sortBy sortOrder pageSize,
          ((readDB (runSchedule ⟨s, .received A, .received B⟩ turns).store).length : Int)
              ≤ pageSize →
          ((listDocuments cm (runSchedule ⟨s, .received A, .received B⟩ turns).store
              ⟨1, pageSize, sortBy, sortOrder, ""⟩).body.documents).Perm
            (readDB s ++ batchRecords A ++ batchRecords B))
      ∧ (runSchedule ⟨s, .received A, .received B⟩ [true, true, false, false]).store
        = (ingest (ingest s A).1 B).1
      ∧ (runSchedule ⟨s, .received A, .received B⟩ [false, false, true, true]).store
        = (ingest (ingest s B).1 A).1 := by
  have hinit : Interleaved s A B ⟨s, .received A, .received B⟩ :=
    ⟨Or.inl rfl, Or.inl rfl, rfl⟩
  have hinv := runSchedule_interleaved s A B hAne hAacc hBne hBacc turns _ hinit
  obtain ⟨hs1, hs2⟩ := runSchedule_stage turns ⟨s, .received A, .received B⟩
  have hst1 : (runSchedule ⟨s, .received A, .received B⟩ turns).first.stage = 2 := by
    rw [hs1]
    simp only [RequestPhase.stage]
    omega
  have hst2 : (runSchedule ⟨s, .received A, .received B⟩ turns).second.stage = 2 := by
    rw [hs2]
    simp only [RequestPhase.stage]
    omega
  obtain ⟨h1, h2, h3⟩ := hinv
  have hfirstDone : (runSchedule ⟨s, .received A, .received B⟩ turns).first
      = .answered ⟨201, .uploaded "Upload successful" (batchRecords A)⟩ := by
    rcases h1 with h | h | h
    · rw [h] at hst1
      simp [RequestPhase.stage] at hst1
    · rw [h] at hst1
      simp [RequestPhase.stage] at hst1
    · exact h
  have hsecondDone : (runSchedule ⟨s, .received A, .received B⟩ turns).second
      = .answered ⟨201, .uploaded "Upload successful" (batchRecords B)⟩ := by
    rcases h2 with h | h | h
    · rw [h] at hst2
      simp [RequestPhase.stage] at hst2
    · rw [h] at hst2
      simp [RequestPhase.stage] at hst2
    · exact h
  rw [hfirstDone, hsecondDone] at h3
  simp only [RequestPhase.isAnswered] at h3
  refine ⟨hfirstDone, hsecondDone, h3, ?_, ?_, ?_⟩
  · intro cm sortBy sortOrder pageSize hsize
    have hApos : 0 < (batchRecords A).length := by
      cases A with
      | nil => exact absurd rfl hAne
      | cons p rest => simp [batchRecords]
    have hread : (readDB (runSchedule ⟨s, .received A, .received B⟩ turns).store).Perm
        (readDB s ++ batchRecords A ++ batchRecords B) := by
      rcases h3 with h | h
      · rw [readDB_of_some _ _ h]
      · rw [readDB_of_some _ _ h, List.append_assoc, List.append_assoc]
        exact List.Perm.append_left _ List.perm_append_comm
    have hpos : 0 < pageSize := by
      have hl := hread.length_eq
      simp only [List.length_append] at hl
      omega
    exact (listDocuments_whole cm _ sortBy sortOrder pageSize hpos hsize).trans hread
  · simp only [runSchedule, List.foldl_cons, List.foldl_nil, takeTurn, if_true,
      Bool.false_eq_true, if_false, advance, ingest_eq_callback]
  · simp only [runSchedule, List.foldl_cons, List.foldl_nil, takeTurn, if_true,
      Bool.false_eq_true, if_false, advance, ingest_eq_callback]

/-- A witness of C20: the two sample batches with their turns alternating,
first request first. -/
theorem concurrent_uploads_witness :
    sampleBatch ≠ [] ∧ otherBatch ≠ []
      ∧ 2 ≤ [true, false, true, false].count true ∧ 2 ≤ [true, false, true, false].count false
      ∧ (runSchedule ⟨sampleStore, .received sampleBatch, .received otherBatch⟩
          [true, false, true, false]).first
        = .answered ⟨201, .uploaded "Upload successful" (batchRecords sampleBatch)⟩
      ∧ (runSchedule ⟨sampleStore, .received sampleBatch, .received otherBatch⟩
          [true, false, true, false]).store.dbFile
        = some (readDB sampleStore ++ batchRecords sampleBatch ++ batchRecords otherBatch) := by
  have h := concurrent_uploads sampleStore sampleBatch otherBatch (by decide) (by decide)
    (by decide) (by decide) [true, false, true, false] (by decide) (by decide)
  exact ⟨by decide, by decide, by decide, by decide, h.1, by decide⟩


end MDM
